import Mathlib

/-!
Verification of the clock registry and navigation engine of the `reloj`
repository (`src/clock_project/main.py`).

The Python program keeps a doubly circular linked list of `ClockNode`
objects and derives analytics from it.  We embed it shallowly:

* Python heap objects become records stored in an address-indexed heap
  (`Nat → ClockNode`); the mutable `next_clock` / `previous_clock`
  object references become `Option Nat` addresses (they are `None` in a
  freshly constructed node and are set by `add_clock`).
* `datetime.now(tz)` plus the timezone conversion performed by `pytz`
  is an external input; we model the local wall-clock time that
  `get_current_time` returns for each node as an oracle
  `TimeEnv : Nat → LocalTime` indexed by heap address.
* `pytz.timezone` raising `UnknownTimeZoneError` is modelled by a
  finite table of recognized identifiers containing the ones the
  program uses; an unrecognized identifier makes construction fail.
* `timedelta` values produced by `set_time_offset(hours, minutes)` are
  kept as their exact total number of seconds (an `Int`); Python's
  floor division `//` and floor modulus `%` become `Int.fdiv` and
  `Int.fmod`.
* float arithmetic on hour fractions is carried out exactly in `ℚ`.
-/

/-- Wall-clock fields of an (already localized) `datetime` value: the only
fields of a timestamp that the verified operations inspect. -/
structure LocalTime where
  hour : Nat
  minute : Nat
  second : Nat
deriving Repr, DecidableEq, Inhabited

/-- The oracle giving each heap address the local current time its record
reads through `get_current_time` (system clock, timezone conversion and
manual offset already applied). -/
def TimeEnv : Type := Nat → LocalTime

/-- Identifiers recognized by the timezone database (`pytz`): an
abstraction of the IANA table restricted to names relevant here. -/
def pytzTimezones : List String :=
  ["America/Bogota", "Europe/London", "Asia/Shanghai", "UTC"]

/-- Resolution of a timezone identifier; `pytz.timezone` succeeds exactly on
recognized identifiers and raises `UnknownTimeZoneError` otherwise. -/
def validTimezone (tz : String) : Bool := pytzTimezones.contains tz

/-- One clock record (`ClockNode` in `main.py`).  `next_clock` and
`previous_clock` hold heap addresses once the node is linked into a ring;
`time_offset` is the exact number of seconds of the stored `timedelta`. -/
structure ClockNode where
  city_name : String
  timezone_str : String
  image_filename : String
  next_clock : Option Nat
  previous_clock : Option Nat
  time_offset : Int
  is_modified : Bool
deriving Repr, DecidableEq, Inhabited

/-- `ClockNode.__init__`: fails (returns `none`) when `pytz.timezone`
raises on the identifier, otherwise yields the freshly initialized node
with unset links, zero offset and `is_modified = False`. -/
def ClockNode.init (city_name timezone_str image_filename : String) :
    Option ClockNode :=
  if validTimezone timezone_str then
    some { city_name := city_name
           timezone_str := timezone_str
           image_filename := image_filename
           next_clock := none
           previous_clock := none
           time_offset := 0
           is_modified := false }
  else
    none

/-- `ClockNode.set_time_offset`: stores `timedelta(hours=hours,
minutes=minutes)` (i.e. `3600*hours + 60*minutes` seconds) and sets
`is_modified = hours != 0 or minutes != 0`. -/
def ClockNode.set_time_offset (n : ClockNode) (hours minutes : Int) :
    ClockNode :=
  { n with
    time_offset := 3600 * hours + 60 * minutes
    is_modified := hours != 0 || minutes != 0 }

/-- `ClockNode.reset_time_offset`: zero offset, flag cleared. -/
def ClockNode.reset_time_offset (n : ClockNode) : ClockNode :=
  { n with time_offset := 0, is_modified := false }

/-- `ClockNode.is_daytime`: the current hour is in `[6, 18)`.  The node's
current time is supplied by the oracle. -/
def ClockNode.is_daytime (current_time : LocalTime) : Bool :=
  decide (6 ≤ current_time.hour) && decide (current_time.hour < 18)

/-- `ClockNode.calculate_hour_angle`:
`(time.hour % 12) * 30 + time.minute * 0.5`, computed exactly in `ℚ`. -/
def ClockNode.calculate_hour_angle (time : LocalTime) : ℚ :=
  ((time.hour % 12 : Nat) : ℚ) * 30 + (time.minute : ℚ) * (1 / 2)

/-- `ClockNode.calculate_minute_angle`: `time.minute * 6`. -/
def ClockNode.calculate_minute_angle (time : LocalTime) : Nat :=
  time.minute * 6

/-- `ClockNode.calculate_second_angle`: `time.second * 6`. -/
def ClockNode.calculate_second_angle (time : LocalTime) : Nat :=
  time.second * 6

/-- Zero-padding to two digits, as the `%I`/`%M` directives of
`strftime` produce. -/
def pad2 (n : Nat) : String :=
  if n < 10 then "0" ++ toString n else toString n

/-- `strftime('%I:%M %p')`: zero-padded 12-hour clock (`00` ↦ `12`),
zero-padded minute, and the meridiem marker. -/
def LocalTime.formatTime12h (t : LocalTime) : String :=
  pad2 (if t.hour % 12 = 0 then 12 else t.hour % 12) ++ ":" ++
    pad2 t.minute ++ " " ++ (if t.hour < 12 then "AM" else "PM")

/-- `datetime.replace(hour=h, minute=m, second=s)` restricted to the
wall-clock fields. -/
def LocalTime.replaceHMS (t : LocalTime) (hour minute second : Nat) :
    LocalTime :=
  { t with hour := hour, minute := minute, second := second }

/-- Rounding to the nearest integer, ties to even: the behavior of
Python's builtin `round`. -/
def roundHalfToEven (q : ℚ) : ℤ :=
  let f : ℤ := ⌊q⌋
  if q - f < 1 / 2 then f
  else if 1 / 2 < q - f then f + 1
  else if f % 2 = 0 then f else f + 1

/-- `round(x, 2)`: round to two decimal places.  Python's `round` on a
float yields the float that serializes as that decimal; it is modelled by
the exact two-decimal value. -/
def pyRound2 (q : ℚ) : ℚ := (roundHalfToEven (q * 100) : ℚ) / 100

/-- Round a real (rational) value to the nearest IEEE binary64 double
(53-bit significand, ties to even), returning the double's exact value
as a rational: the effect of every arithmetic operation CPython performs
on `float`s.  Exponent-range limits (overflow and subnormals) are not
modelled; every value arising under the verified hypotheses lies well
inside the normal range, where this is exact. -/
def fl (q : ℚ) : ℚ :=
  if q = 0 then 0
  else
    (roundHalfToEven (q * (2:ℚ) ^ ((52:ℤ) - Int.log 2 |q|)) : ℚ) *
      (2:ℚ) ^ (Int.log 2 |q| - 52)

/-- The dictionary built by `ClockNode.get_clock_data`.  The `date` and
`day_of_week` entries are calendar-dependent and inspected by no verified
claim, so they are not carried. -/
structure ClockData where
  city : String
  timezone : String
  hour : Nat
  minute : Nat
  second : Nat
  is_day : Bool
  image : String
  hour_angle : ℚ
  minute_angle : Nat
  second_angle : Nat
  formatted_time : String
  is_modified : Bool
  offset_hours : Int
  offset_minutes : Int
deriving Repr, DecidableEq

/-- `ClockNode.get_clock_data`: the snapshot dictionary.  `current_time`
is the value of `self.get_current_time()` (supplied by the oracle);
`total_seconds()` is exact on the stored offsets, and Python's float
floor division and modulus on it coincide with `Int.fdiv`/`Int.fmod`. -/
def ClockNode.get_clock_data (n : ClockNode) (current_time : LocalTime) :
    ClockData :=
  { city := n.city_name
    timezone := n.timezone_str
    hour := current_time.hour
    minute := current_time.minute
    second := current_time.second
    is_day := ClockNode.is_daytime current_time
    image := n.image_filename
    hour_angle := ClockNode.calculate_hour_angle current_time
    minute_angle := ClockNode.calculate_minute_angle current_time
    second_angle := ClockNode.calculate_second_angle current_time
    formatted_time := current_time.formatTime12h
    is_modified := n.is_modified
    offset_hours := n.time_offset.fdiv 3600
    offset_minutes := (n.time_offset.fmod 3600).fdiv 60 }

/-- The ring (`CircularClockList` in `main.py`): an address-indexed heap of
nodes together with the head reference and the node counter.  Addresses of
live nodes are allocated consecutively from `0`, so `clock_count` doubles
as the next fresh address. -/
structure CircularClockList where
  nodes : Nat → ClockNode
  head_clock : Option Nat
  clock_count : Nat

/-- `CircularClockList.__init__`: empty ring. -/
def CircularClockList.empty : CircularClockList :=
  { nodes := fun _ => default, head_clock := none, clock_count := 0 }

/-- Dereference a node's `next_clock` reference (total on the heap; in any
reachable linked state the reference is set, and the `getD` default is
never used). -/
def CircularClockList.followNext (l : CircularClockList) (i : Nat) : Nat :=
  ((l.nodes i).next_clock).getD i

/-- Dereference a node's `previous_clock` reference. -/
def CircularClockList.followPrev (l : CircularClockList) (i : Nat) : Nat :=
  ((l.nodes i).previous_clock).getD i

/-- The heap effect of the Python statement `obj.next_clock = target`
executed on the object at address `addr`. -/
def assignNext (heap : Nat → ClockNode) (addr : Nat)
    (target : Option Nat) : Nat → ClockNode :=
  fun j => if j = addr then { heap addr with next_clock := target }
           else heap j

/-- The heap effect of the Python statement
`obj.previous_clock = target` executed on the object at address `addr`. -/
def assignPrev (heap : Nat → ClockNode) (addr : Nat)
    (target : Option Nat) : Nat → ClockNode :=
  fun j => if j = addr then { heap addr with previous_clock := target }
           else heap j

/-- `CircularClockList.add_clock`.  Mirrors the Python statement order:
construct the node (an unrecognized timezone raises here, before any ring
field is touched, so the returned state is the unchanged input ring paired
with the error); then either self-link the first node or splice the new
node in between the tail (`head.previous_clock`) and the head.  The new
object is allocated at the fresh address `l.clock_count` with its two
link fields already set — no statement of the Python body reads them
between its own assignments, so the order relative to the two assignments
into the old objects is immaterial. -/
def CircularClockList.add_clock (l : CircularClockList)
    (city_name timezone_str image_filename : String) :
    CircularClockList × Option String :=
  match ClockNode.init city_name timezone_str image_filename with
  | none => (l, some "UnknownTimeZoneError")
  | some new0 =>
    let newAddr := l.clock_count
    match l.head_clock with
    | none =>
      let new1 := { new0 with
                    next_clock := some newAddr
                    previous_clock := some newAddr }
      ({ nodes := fun j => if j = newAddr then new1 else l.nodes j
         head_clock := some newAddr
         clock_count := l.clock_count + 1 }, none)
    | some h =>
      let tailAddr := ((l.nodes h).previous_clock).getD h
      let new1 := { new0 with
                    previous_clock := some tailAddr
                    next_clock := some h }
      let heap1 : Nat → ClockNode :=
        fun j => if j = newAddr then new1 else l.nodes j
      let heap2 := assignNext heap1 tailAddr (some newAddr)
      let heap3 := assignPrev heap2 h (some newAddr)
      ({ nodes := heap3
         head_clock := l.head_clock
         clock_count := l.clock_count + 1 }, none)

/-- The `current = current.next` loop pattern every traversal of
`main.py` uses: visit `steps` nodes starting at `cur`. -/
def CircularClockList.visitLoop (l : CircularClockList) (cur : Nat) :
    Nat → List Nat
  | 0 => []
  | steps + 1 => cur :: l.visitLoop (l.followNext cur) steps

/-- Addresses in ring order starting at the head (empty for the empty
ring), as each counted `for` loop of `main.py` visits them. -/
def CircularClockList.ringNodes (l : CircularClockList) : List Nat :=
  match l.head_clock with
  | none => []
  | some h => l.visitLoop h l.clock_count

/-- `CircularClockList.get_dominant_theme`: count the daytime records over
one full traversal; `'day'` when `day_count >= clock_count / 2` under
Python's exact (float) division, `'night'` otherwise. -/
def CircularClockList.get_dominant_theme (l : CircularClockList)
    (env : TimeEnv) : String :=
  match l.head_clock with
  | none => "day"
  | some h =>
    let day_count :=
      (l.visitLoop h l.clock_count).countP
        (fun i => ClockNode.is_daytime (env i))
    if (l.clock_count : ℚ) / 2 ≤ (day_count : ℚ) then "day" else "night"

/-- `CircularClockList.get_clock_at_index`: `None` on an empty ring or an
out-of-range index, otherwise the node reached from the head by `index`
steps of `next_clock`. -/
def CircularClockList.get_clock_at_index (l : CircularClockList)
    (index : Int) : Option Nat :=
  if l.head_clock = none ∨ index < 0 ∨ (l.clock_count : Int) ≤ index then
    none
  else
    match l.head_clock with
    | none => none
    | some h => some ((l.followNext)^[index.toNat] h)

/-- The comparison dictionary returned by
`CircularClockList.calculate_time_difference`. -/
structure TimeDifference where
  clock1 : String
  clock2 : String
  difference_hours : ℚ
  difference_text : String
deriving Repr, DecidableEq

/-- `CircularClockList._format_time_difference`.  The argument is the
binary64 value of `diff`; `abs` and `int(...)` are exact float
operations (`int` truncates, which on these non-negative quantities is
the floor), while the subtraction and the multiplication by 60 each
round their exact result to binary64 (`fl`), as CPython does. -/
def CircularClockList.format_time_difference (hours : ℚ) : String :=
  let abs_hours := |hours|
  let whole_hours : ℤ := ⌊abs_hours⌋
  let minutes : ℤ := ⌊fl (fl (abs_hours - (whole_hours : ℚ)) * 60)⌋
  let direction := if 0 < hours then "ahead" else "behind"
  if minutes = 0 then
    toString whole_hours ++ " hours " ++ direction
  else
    toString whole_hours ++ "h " ++ toString minutes ++ "m " ++ direction

/-- `CircularClockList.calculate_time_difference`: resolve both indices,
read both current times, and report
`(time2.hour - time1.hour) + (time2.minute - time1.minute) / 60`.  The
hour and minute subtractions are exact Python `int` arithmetic; the
division by 60 and the addition are float operations, each rounding its
exact result to binary64 (`fl`). -/
def CircularClockList.calculate_time_difference (l : CircularClockList)
    (env : TimeEnv) (index1 index2 : Int) : Option TimeDifference :=
  match l.get_clock_at_index index1, l.get_clock_at_index index2 with
  | some clock1, some clock2 =>
    let time1 := env clock1
    let time2 := env clock2
    let diff : ℚ := fl (((time2.hour : ℚ) - (time1.hour : ℚ)) +
      fl (((time2.minute : ℚ) - (time1.minute : ℚ)) / 60))
    some { clock1 := (l.nodes clock1).city_name
           clock2 := (l.nodes clock2).city_name
           difference_hours := pyRound2 diff
           difference_text := CircularClockList.format_time_difference diff }
  | _, _ => none

/-- One per-city entry of a meeting-time candidate. -/
structure MeetingClockTime where
  city : String
  time : String
  hour : Nat
deriving Repr, DecidableEq

/-- One candidate returned by `find_optimal_meeting_time`. -/
structure MeetingOption where
  reference_hour : Nat
  times : List MeetingClockTime
  quality : String
deriving Repr, DecidableEq

/-- `CircularClockList.find_optimal_meeting_time`: for each reference hour
`0 ≤ hour < 24`, substitute `hour` (zeroing minute and second) into every
record's current time and keep the hour when every substituted time lies
in `[start_hour, end_hour)`. -/
def CircularClockList.find_optimal_meeting_time (l : CircularClockList)
    (env : TimeEnv) (start_hour end_hour : Int) : List MeetingOption :=
  match l.head_clock with
  | none => []
  | some h =>
    (List.range 24).filterMap (fun hour =>
      let visited := l.visitLoop h l.clock_count
      let times_for_hour := visited.map (fun i =>
        let test_time := (env i).replaceHMS hour 0 0
        ({ city := (l.nodes i).city_name
           time := test_time.formatTime12h
           hour := test_time.hour } : MeetingClockTime))
      let all_in_range := visited.all (fun i =>
        let test_time := (env i).replaceHMS hour 0 0
        !(decide ((test_time.hour : Int) < start_hour) ||
          decide (end_hour ≤ (test_time.hour : Int))))
      if all_in_range then
        some { reference_hour := hour
               times := times_for_hour
               quality := "excellent" }
      else none)

/-- Fold a list of `(city, timezone, image)` triples into a ring by
successive `add_clock` calls starting from the empty ring (a failing call
leaves the ring unchanged, exactly as the propagated exception would). -/
def buildRing (entries : List (String × String × String)) :
    CircularClockList :=
  entries.foldl
    (fun l e => (l.add_clock e.1 e.2.1 e.2.2).1)
    CircularClockList.empty

/-- The three seed entries appended at startup in `main.py`. -/
def seedEntries : List (String × String × String) :=
  [("Colombia", "America/Bogota", "clock_colombia.png"),
   ("United Kingdom", "Europe/London", "clock_uk.png"),
   ("China", "Asia/Shanghai", "clock_china.png")]

/-- The ring the program builds at startup. -/
def clock_list : CircularClockList := buildRing seedEntries

/-- Structural well-formedness of a ring reachable by `add_clock` calls:
nodes live at addresses `0 .. clock_count - 1` in insertion order, the
head is address `0` as soon as the ring is non-empty, and the links
realize the circular successor/predecessor on those addresses. -/
def ringWF (l : CircularClockList) : Prop :=
  (l.head_clock = if l.clock_count = 0 then none else some 0) ∧
  ∀ i, i < l.clock_count →
    (l.nodes i).next_clock =
      some (if i + 1 = l.clock_count then 0 else i + 1) ∧
    (l.nodes i).previous_clock =
      some (if i = 0 then l.clock_count - 1 else i - 1)

/-- A two-clock ring used to exercise the tie and comparison scenarios. -/
def pairRing : CircularClockList :=
  buildRing [("Alpha", "UTC", "a.png"), ("Beta", "UTC", "b.png")]

/-- Oracle for the pairwise-difference scenario: the first clock reads
09:30:00 and the second 14:30:00 (equal minutes, hours 9 and 14). -/
def envDifference : TimeEnv :=
  fun i => if i = 0 then ⟨9, 30, 0⟩ else ⟨14, 30, 0⟩

/-- Oracle for the theme-tie scenario: the first clock reads 10:00:00
(daytime) and the second 02:00:00 (night). -/
def envThemeTie : TimeEnv :=
  fun i => if i = 0 then ⟨10, 0, 0⟩ else ⟨2, 0, 0⟩

/-- Oracle for the float-truncation counterexample: the first clock reads
09:00:00 and the second 14:07:00 (a 5 hour 7 minute exact difference). -/
def envCounter : TimeEnv :=
  fun i => if i = 0 then ⟨9, 0, 0⟩ else ⟨14, 7, 0⟩

/-!  Theorems -/

/-- Claim C1 counterexample: for the manual offset of -1 hour -30 minutes
the snapshot decomposition produced by `get_clock_data` is
`offset_hours = -2`, `offset_minutes = 30`: the minutes component is
strictly positive while the overall offset is strictly negative, so the
components do not carry the sign of the offset as the claim states. -/
theorem offset_sign_counterexample :
    ((clock_list.nodes 0).set_time_offset (-1) (-30)).time_offset < 0 ∧
    (((clock_list.nodes 0).set_time_offset (-1) (-30)).get_clock_data
      ⟨12, 0, 0⟩).offset_hours = -2 ∧
    (((clock_list.nodes 0).set_time_offset (-1) (-30)).get_clock_data
      ⟨12, 0, 0⟩).offset_minutes = 30 ∧
    ¬ (((clock_list.nodes 0).set_time_offset (-1) (-30)).get_clock_data
      ⟨12, 0, 0⟩).offset_minutes ≤ 0 := by
  decide

/-- Claim C1 (amended): the snapshot pair `(offset_hours, offset_minutes)`
decomposes the stored offset losslessly —
`offset_hours * 60 + offset_minutes` equals the total offset in minutes —
but by Python floor division `offset_minutes` always lies in `[0, 60)`
and `offset_hours` is the floor of the offset in hours; hence both
components are sign-consistent for non-negative offsets, while a negative
offset whose minutes are not a multiple of 60 (such as -1 hour
-30 minutes) yields a floored negative hour component and a positive
minutes component. -/
theorem offset_decomposition_floor (n : ClockNode) (t : LocalTime)
    (hours minutes : Int) :
    ((n.set_time_offset hours minutes).get_clock_data t).offset_hours * 60 +
      ((n.set_time_offset hours minutes).get_clock_data t).offset_minutes =
      60 * hours + minutes ∧
    0 ≤ ((n.set_time_offset hours minutes).get_clock_data t).offset_minutes ∧
    ((n.set_time_offset hours minutes).get_clock_data t).offset_minutes < 60 ∧
    (0 ≤ 60 * hours + minutes →
      0 ≤ ((n.set_time_offset hours minutes).get_clock_data t).offset_hours) ∧
    (60 * hours + minutes ≤ 0 →
      ((n.set_time_offset hours minutes).get_clock_data t).offset_hours ≤ 0) := by
  simp only [ClockNode.set_time_offset, ClockNode.get_clock_data]
  rw [Int.fmod_eq_emod _ (by norm_num), Int.fdiv_eq_ediv _ (by norm_num),
    Int.fdiv_eq_ediv _ (by norm_num)]
  omega

/-- Claim C1 witness: the amended decomposition evaluated at the
-1 hour -30 minutes offset. -/
theorem offset_decomposition_floor_witness :
    (((clock_list.nodes 0).set_time_offset (-1) (-30)).get_clock_data
        ⟨12, 0, 0⟩).offset_hours * 60 +
      (((clock_list.nodes 0).set_time_offset (-1) (-30)).get_clock_data
        ⟨12, 0, 0⟩).offset_minutes = 60 * (-1) + (-30) ∧
    (((clock_list.nodes 0).set_time_offset (-1) (-30)).get_clock_data
        ⟨12, 0, 0⟩).offset_hours ≤ 0 :=
  ⟨(offset_decomposition_floor (clock_list.nodes 0) ⟨12, 0, 0⟩ (-1) (-30)).1,
   (offset_decomposition_floor (clock_list.nodes 0) ⟨12, 0, 0⟩ (-1)
      (-30)).2.2.2.2 (by norm_num)⟩

/-- Claim C2 counterexample: `set_time_offset(1, -60)` stores the zero
offset (`timedelta(hours=1, minutes=-60) = 0`) yet sets
`is_modified = True`, so `is_modified` is not equivalent to the stored
offset being non-zero. -/
theorem is_modified_counterexample :
    ((clock_list.nodes 0).set_time_offset 1 (-60)).is_modified = true ∧
    ((clock_list.nodes 0).set_time_offset 1 (-60)).time_offset = 0 := by
  decide

/-- Claim C2 (amended): `set_time_offset(hours, minutes)` sets
`is_modified` to true exactly when one of its two arguments is non-zero
(not when the resulting stored duration is non-zero), and
`reset_time_offset` clears both the offset and the flag; the claim's
equivalence between `is_modified` and a non-zero stored offset therefore
holds exactly for argument pairs whose signed total `60*hours + minutes`
does not cancel to zero with non-zero components. -/
theorem is_modified_tracks_call_arguments (n : ClockNode)
    (hours minutes : Int) :
    ((n.set_time_offset hours minutes).is_modified = true ↔
      (hours ≠ 0 ∨ minutes ≠ 0)) ∧
    (n.reset_time_offset).is_modified = false ∧
    (n.reset_time_offset).time_offset = 0 ∧
    ((60 * hours + minutes ≠ 0 ∨ (hours = 0 ∧ minutes = 0)) →
      ((n.set_time_offset hours minutes).is_modified = true ↔
        (n.set_time_offset hours minutes).time_offset ≠ 0)) := by
  simp only [ClockNode.set_time_offset, ClockNode.reset_time_offset,
    Bool.or_eq_true, bne_iff_ne, ne_eq]
  refine ⟨trivial, trivial, trivial, fun hnc => ?_⟩
  omega

/-- Claim C2 witness: the amended characterization evaluated at the
offset call `set_time_offset(2, 30)`. -/
theorem is_modified_tracks_call_arguments_witness :
    ((clock_list.nodes 1).set_time_offset 2 30).is_modified = true ∧
    ((clock_list.nodes 1).set_time_offset 2 30).time_offset ≠ 0 :=
  ⟨(is_modified_tracks_call_arguments (clock_list.nodes 1) 2 30).1.mpr
      (Or.inl (by norm_num)),
   ((is_modified_tracks_call_arguments (clock_list.nodes 1) 2 30).2.2.2
      (Or.inl (by norm_num))).mp
    ((is_modified_tracks_call_arguments (clock_list.nodes 1) 2 30).1.mpr
      (Or.inl (by norm_num)))⟩

/-- Claim C10: for every valid wall-clock reading (`hour < 24`,
`minute < 60`, `second < 60`) the three hand angles follow the source
formulas `(hour % 12)*30 + minute*0.5`, `minute*6`, `second*6` and all
lie in the interval `[0, 360)`. -/
theorem clock_angle_bounds (t : LocalTime) (_hh : t.hour < 24)
    (hm : t.minute < 60) (hs : t.second < 60) :
    0 ≤ ClockNode.calculate_hour_angle t ∧
    ClockNode.calculate_hour_angle t < 360 ∧
    ClockNode.calculate_hour_angle t =
      ((t.hour % 12 : Nat) : ℚ) * 30 + (t.minute : ℚ) / 2 ∧
    ClockNode.calculate_minute_angle t = 6 * t.minute ∧
    ClockNode.calculate_minute_angle t < 360 ∧
    ClockNode.calculate_second_angle t = 6 * t.second ∧
    ClockNode.calculate_second_angle t < 360 := by
  have h12 : ((t.hour % 12 : Nat) : ℚ) ≤ 11 := by
    exact_mod_cast (by omega : t.hour % 12 ≤ 11)
  have h12n : (0 : ℚ) ≤ ((t.hour % 12 : Nat) : ℚ) := by positivity
  have hm59 : ((t.minute : Nat) : ℚ) ≤ 59 := by
    exact_mod_cast (by omega : t.minute ≤ 59)
  have hmn : (0 : ℚ) ≤ ((t.minute : Nat) : ℚ) := by positivity
  refine ⟨?_, ?_, ?_, ?_, ?_, ?_, ?_⟩
  · unfold ClockNode.calculate_hour_angle
    positivity
  · unfold ClockNode.calculate_hour_angle
    nlinarith
  · rw [ClockNode.calculate_hour_angle, mul_one_div]
  · rw [ClockNode.calculate_minute_angle, Nat.mul_comm]
  · unfold ClockNode.calculate_minute_angle
    omega
  · rw [ClockNode.calculate_second_angle, Nat.mul_comm]
  · unfold ClockNode.calculate_second_angle
    omega

/-- Claim C10 witness: the angle formulas and bounds at the extreme
reading 23:59:59. -/
theorem clock_angle_bounds_witness :
    0 ≤ ClockNode.calculate_hour_angle ⟨23, 59, 59⟩ ∧
    ClockNode.calculate_hour_angle ⟨23, 59, 59⟩ < 360 ∧
    ClockNode.calculate_minute_angle ⟨23, 59, 59⟩ < 360 ∧
    ClockNode.calculate_second_angle ⟨23, 59, 59⟩ < 360 :=
  ⟨(clock_angle_bounds ⟨23, 59, 59⟩ (by norm_num) (by norm_num)
      (by norm_num)).1,
   (clock_angle_bounds ⟨23, 59, 59⟩ (by norm_num) (by norm_num)
      (by norm_num)).2.1,
   (clock_angle_bounds ⟨23, 59, 59⟩ (by norm_num) (by norm_num)
      (by norm_num)).2.2.2.2.1,
   (clock_angle_bounds ⟨23, 59, 59⟩ (by norm_num) (by norm_num)
      (by norm_num)).2.2.2.2.2.2⟩

/-- `ClockNode.init` on a recognized timezone identifier. -/
lemma ClockNode.init_of_valid (city img : String) {tz : String}
    (hv : validTimezone tz = true) :
    ClockNode.init city tz img =
      some { city_name := city, timezone_str := tz, image_filename := img,
             next_clock := none, previous_clock := none,
             time_offset := 0, is_modified := false } := by
  simp [ClockNode.init, hv]

/-- `ClockNode.init` on an unrecognized timezone identifier. -/
lemma ClockNode.init_of_invalid (city img : String) {tz : String}
    (hv : validTimezone tz = false) :
    ClockNode.init city tz img = none := by
  simp [ClockNode.init, hv]

/-- `add_clock` on an unrecognized timezone: the error propagates and the
returned ring state is the input ring, untouched. -/
lemma CircularClockList.add_clock_invalid (l : CircularClockList)
    (c img : String) {tz : String} (hv : validTimezone tz = false) :
    l.add_clock c tz img = (l, some "UnknownTimeZoneError") := by
  unfold CircularClockList.add_clock
  rw [ClockNode.init_of_invalid c img hv]

/-- The empty ring is well-formed. -/
lemma ringWF_empty : ringWF CircularClockList.empty :=
  ⟨rfl, fun i hi => absurd hi (Nat.not_lt_zero i)⟩

/-- Projection: a `next_clock` assignment changes exactly that field. -/
lemma assignNext_next (heap : Nat → ClockNode) (a : Nat)
    (v : Option Nat) (j : Nat) :
    ((assignNext heap a v) j).next_clock =
      if j = a then v else (heap j).next_clock := by
  unfold assignNext
  split_ifs with h
  · rfl
  · rfl

/-- Projection: a `next_clock` assignment leaves `previous_clock` alone. -/
lemma assignNext_prev (heap : Nat → ClockNode) (a : Nat)
    (v : Option Nat) (j : Nat) :
    ((assignNext heap a v) j).previous_clock =
      (heap j).previous_clock := by
  unfold assignNext
  split_ifs with h
  · subst h; rfl
  · rfl

/-- Projection: a `next_clock` assignment leaves `city_name` alone. -/
lemma assignNext_city (heap : Nat → ClockNode) (a : Nat)
    (v : Option Nat) (j : Nat) :
    ((assignNext heap a v) j).city_name = (heap j).city_name := by
  unfold assignNext
  split_ifs with h
  · subst h; rfl
  · rfl

/-- Projection: a `previous_clock` assignment changes exactly that
field. -/
lemma assignPrev_prev (heap : Nat → ClockNode) (a : Nat)
    (v : Option Nat) (j : Nat) :
    ((assignPrev heap a v) j).previous_clock =
      if j = a then v else (heap j).previous_clock := by
  unfold assignPrev
  split_ifs with h
  · rfl
  · rfl

/-- Projection: a `previous_clock` assignment leaves `next_clock`
alone. -/
lemma assignPrev_next (heap : Nat → ClockNode) (a : Nat)
    (v : Option Nat) (j : Nat) :
    ((assignPrev heap a v) j).next_clock = (heap j).next_clock := by
  unfold assignPrev
  split_ifs with h
  · subst h; rfl
  · rfl

/-- Projection: a `previous_clock` assignment leaves `city_name`
alone. -/
lemma assignPrev_city (heap : Nat → ClockNode) (a : Nat)
    (v : Option Nat) (j : Nat) :
    ((assignPrev heap a v) j).city_name = (heap j).city_name := by
  unfold assignPrev
  split_ifs with h
  · subst h; rfl
  · rfl

/-- `add_clock` preserves structural well-formedness. -/
lemma ringWF_add_clock (l : CircularClockList) (c tz img : String)
    (hwf : ringWF l) : ringWF (l.add_clock c tz img).1 := by
  obtain ⟨hhead, hnodes⟩ := hwf
  cases hv : validTimezone tz with
  | false =>
    rw [l.add_clock_invalid c img hv]
    exact ⟨hhead, hnodes⟩
  | true =>
    unfold CircularClockList.add_clock
    rw [ClockNode.init_of_valid c img hv]
    cases hh : l.head_clock with
    | none =>
      have hc0 : l.clock_count = 0 := by
        by_contra hne
        rw [hh, if_neg hne] at hhead
        exact Option.noConfusion hhead
      refine ⟨by simp [hc0], ?_⟩
      intro i hi
      have hi0 : i = 0 := by
        simp only [hc0] at hi
        omega
      subst hi0
      simp [hc0]
    | some hd =>
      rw [hh] at hhead
      have hcne : l.clock_count ≠ 0 := by
        intro h0
        rw [if_pos h0] at hhead
        exact Option.noConfusion hhead
      rw [if_neg hcne] at hhead
      have hd0 : hd = 0 := by injection hhead
      subst hd0
      have htail : ((l.nodes 0).previous_clock).getD 0 =
          l.clock_count - 1 := by
        rw [(hnodes 0 (by omega)).2]
        simp
      dsimp only
      rw [htail]
      refine ⟨by simp, ?_⟩
      intro i hi
      replace hi : i < l.clock_count + 1 := hi
      constructor
      · show ((assignPrev _ 0 (some l.clock_count)) i).next_clock = _
        rw [assignPrev_next, assignNext_next]
        by_cases hit : i = l.clock_count - 1
        · rw [if_pos hit]
          simp only [Option.some.injEq]
          split_ifs <;> omega
        · rw [if_neg hit]
          dsimp only
          by_cases hin : i = l.clock_count
          · rw [if_pos hin]
            simp only [Option.some.injEq]
            split_ifs <;> omega
          · rw [if_neg hin, (hnodes i (by omega)).1]
            simp only [Option.some.injEq]
            split_ifs <;> omega
      · show ((assignPrev _ 0 (some l.clock_count)) i).previous_clock = _
        rw [assignPrev_prev, assignNext_prev]
        by_cases hi0 : i = 0
        · rw [if_pos hi0]
          simp only [Option.some.injEq]
          split_ifs <;> omega
        · rw [if_neg hi0]
          dsimp only
          by_cases hin : i = l.clock_count
          · rw [if_pos hin]
            simp only [Option.some.injEq]
            split_ifs <;> omega
          · rw [if_neg hin, (hnodes i (by omega)).2]
            simp only [Option.some.injEq]
            split_ifs <;> omega

/-- Every ring reachable by `add_clock` calls from the empty ring is
well-formed. -/
lemma ringWF_buildRing (entries : List (String × String × String)) :
    ringWF (buildRing entries) := by
  suffices h : ∀ (es : List (String × String × String))
      (l : CircularClockList), ringWF l →
      ringWF (es.foldl (fun l e => (l.add_clock e.1 e.2.1 e.2.2).1) l) by
    exact h entries CircularClockList.empty ringWF_empty
  intro es
  induction es with
  | nil => exact fun l hl => hl
  | cons e es ih =>
    intro l hl
    exact ih _ (ringWF_add_clock l e.1 e.2.1 e.2.2 hl)

/-- Under well-formedness, `followNext` is the circular successor on the
live addresses. -/
lemma followNext_wf (l : CircularClockList) (hwf : ringWF l) (i : Nat)
    (hi : i < l.clock_count) :
    l.followNext i = (i + 1) % l.clock_count := by
  unfold CircularClockList.followNext
  rw [(hwf.2 i hi).1]
  simp only [Option.getD_some]
  split_ifs with h
  · rw [h, Nat.mod_self]
  · rw [Nat.mod_eq_of_lt (by omega)]

/-- Under well-formedness, `followPrev` is the circular predecessor on
the live addresses. -/
lemma followPrev_wf (l : CircularClockList) (hwf : ringWF l) (i : Nat)
    (hi : i < l.clock_count) :
    l.followPrev i = (i + (l.clock_count - 1)) % l.clock_count := by
  unfold CircularClockList.followPrev
  rw [(hwf.2 i hi).2]
  simp only [Option.getD_some]
  split_ifs with h
  · subst h
    rw [Nat.zero_add, Nat.mod_eq_of_lt (by omega)]
  · have harg : i + (l.clock_count - 1) = l.clock_count + (i - 1) := by
      omega
    rw [harg, Nat.add_mod_left, Nat.mod_eq_of_lt (by omega)]

/-- Iterating `followNext` adds the step count, circularly. -/
lemma iterate_followNext_wf (l : CircularClockList) (hwf : ringWF l) :
    ∀ (k i : Nat), i < l.clock_count →
      (l.followNext)^[k] i = (i + k) % l.clock_count := by
  intro k
  induction k with
  | zero =>
    intro i hi
    simp [Nat.mod_eq_of_lt hi]
  | succ k ih =>
    intro i hi
    rw [Function.iterate_succ_apply, followNext_wf l hwf i hi,
      ih _ (Nat.mod_lt _ (by omega)), Nat.mod_add_mod]
    congr 1
    omega

/-- Iterating `followPrev` subtracts the step count, circularly. -/
lemma iterate_followPrev_wf (l : CircularClockList) (hwf : ringWF l) :
    ∀ (k i : Nat), i < l.clock_count →
      (l.followPrev)^[k] i =
        (i + k * (l.clock_count - 1)) % l.clock_count := by
  intro k
  induction k with
  | zero =>
    intro i hi
    simp [Nat.mod_eq_of_lt hi]
  | succ k ih =>
    intro i hi
    rw [Function.iterate_succ_apply, followPrev_wf l hwf i hi,
      ih _ (Nat.mod_lt _ (by omega)), Nat.mod_add_mod, Nat.succ_mul]
    congr 1
    omega

/-- The counted visiting loop is the list of `followNext` iterates. -/
lemma visitLoop_eq_map (l : CircularClockList) :
    ∀ (k cur : Nat), l.visitLoop cur k =
      (List.range k).map (fun j => (l.followNext)^[j] cur) := by
  intro k
  induction k with
  | zero => intro cur; rfl
  | succ k ih =>
    intro cur
    rw [CircularClockList.visitLoop, ih, List.range_succ_eq_map]
    simp [Function.iterate_succ_apply, Function.comp_def]

/-- Under well-formedness the head traversal enumerates the addresses in
insertion order. -/
lemma ringNodes_wf (l : CircularClockList) (hwf : ringWF l)
    (hne : l.clock_count ≠ 0) :
    l.ringNodes = List.range l.clock_count := by
  unfold CircularClockList.ringNodes
  rw [hwf.1, if_neg hne]
  dsimp only
  rw [visitLoop_eq_map]
  have hpt : ∀ j ∈ List.range l.clock_count,
      (l.followNext)^[j] 0 = j := by
    intro j hj
    rw [List.mem_range] at hj
    rw [iterate_followNext_wf l hwf j 0 (by omega), Nat.zero_add,
      Nat.mod_eq_of_lt hj]
  calc (List.range l.clock_count).map (fun j => (l.followNext)^[j] 0)
      = (List.range l.clock_count).map id := List.map_congr_left hpt
    _ = List.range l.clock_count := List.map_id _

/-- Claim C3: in any ring produced by a sequence of append operations,
when non-empty with `n = clock_count`: following `next` exactly `n` times
from any record returns to that record, following `previous` `n` times
also returns to it, both double-link symmetries hold at every record, and
the head traversal of length `clock_count` visits pairwise-distinct
records — so `clock_count` equals the number of records linked into the
ring. -/
theorem ring_circularity (ts : List (String × String × String))
    (l : CircularClockList) (hl : l = buildRing ts)
    (hne : l.clock_count ≠ 0) :
    (∀ i, i < l.clock_count →
      ((l.followNext)^[l.clock_count] i = i ∧
       (l.followPrev)^[l.clock_count] i = i ∧
       l.followPrev (l.followNext i) = i ∧
       l.followNext (l.followPrev i) = i)) ∧
    l.ringNodes.Nodup ∧ l.ringNodes.length = l.clock_count := by
  have hwf : ringWF l := hl ▸ ringWF_buildRing ts
  refine ⟨?_, ?_, ?_⟩
  · intro i hi
    refine ⟨?_, ?_, ?_, ?_⟩
    · rw [iterate_followNext_wf l hwf _ i hi, Nat.add_mod_right,
        Nat.mod_eq_of_lt hi]
    · rw [iterate_followPrev_wf l hwf _ i hi,
        Nat.add_mul_mod_self_left, Nat.mod_eq_of_lt hi]
    · rw [followNext_wf l hwf i hi,
        followPrev_wf l hwf _ (Nat.mod_lt _ (by omega)), Nat.mod_add_mod]
      have harg : i + 1 + (l.clock_count - 1) = i + l.clock_count := by
        omega
      rw [harg, Nat.add_mod_right, Nat.mod_eq_of_lt hi]
    · rw [followPrev_wf l hwf i hi,
        followNext_wf l hwf _ (Nat.mod_lt _ (by omega)), Nat.mod_add_mod]
      have harg : i + (l.clock_count - 1) + 1 = i + l.clock_count := by
        omega
      rw [harg, Nat.add_mod_right, Nat.mod_eq_of_lt hi]
  · rw [ringNodes_wf l hwf hne]
    exact List.nodup_range _
  · rw [ringNodes_wf l hwf hne]
    simp

/-- Claim C3 witness: the circularity properties evaluated on the
three-clock startup ring at its head record. -/
theorem ring_circularity_witness :
    (clock_list.followNext)^[clock_list.clock_count] 0 = 0 ∧
    (clock_list.followPrev)^[clock_list.clock_count] 0 = 0 ∧
    clock_list.followPrev (clock_list.followNext 0) = 0 ∧
    clock_list.followNext (clock_list.followPrev 0) = 0 ∧
    clock_list.ringNodes.Nodup ∧
    clock_list.ringNodes.length = clock_list.clock_count := by
  have h := ring_circularity seedEntries clock_list rfl (by decide)
  exact ⟨(h.1 0 (by decide)).1, (h.1 0 (by decide)).2.1,
    (h.1 0 (by decide)).2.2.1, (h.1 0 (by decide)).2.2.2, h.2.1, h.2.2⟩

/-- A successful `add_clock` reports no error, increments the counter,
and keeps (or, on the empty ring, installs) the head. -/
lemma add_clock_success (l : CircularClockList) (c img : String)
    {tz : String} (hv : validTimezone tz = true) :
    (l.add_clock c tz img).2 = none ∧
    (l.add_clock c tz img).1.clock_count = l.clock_count + 1 ∧
    (l.add_clock c tz img).1.head_clock =
      (match l.head_clock with
       | none => some l.clock_count
       | some hd => some hd) := by
  unfold CircularClockList.add_clock
  rw [ClockNode.init_of_valid c img hv]
  cases hh : l.head_clock with
  | none => exact ⟨rfl, rfl, rfl⟩
  | some hd => exact ⟨rfl, rfl, rfl⟩

/-- A successful `add_clock` writes the given city into the new record
at the fresh address. -/
lemma add_clock_new_city (l : CircularClockList) (c img : String)
    {tz : String} (hv : validTimezone tz = true) :
    ((l.add_clock c tz img).1.nodes l.clock_count).city_name = c := by
  unfold CircularClockList.add_clock
  rw [ClockNode.init_of_valid c img hv]
  cases hh : l.head_clock with
  | none => simp
  | some hd =>
    dsimp only
    rw [assignPrev_city, assignNext_city]
    simp

/-- Claim C7: `get_clock_at_index` is a total function of an arbitrary
integer index (it cannot throw); it returns the empty result exactly when
the index is negative, at least `clock_count`, or the ring is empty, and
on a valid index it returns the record reached from the head by that many
`next` steps — under well-formedness, the record at that insertion
position. -/
theorem get_clock_at_index_spec (l : CircularClockList)
    (hwf : ringWF l) (index : Int) :
    (l.get_clock_at_index index = none ↔
      (index < 0 ∨ (l.clock_count : Int) ≤ index ∨ l.clock_count = 0)) ∧
    (∀ k : Nat, (k : Int) = index → k < l.clock_count →
      l.get_clock_at_index index = some k) := by
  have hhead := hwf.1
  constructor
  · unfold CircularClockList.get_clock_at_index
    split_ifs with hcond
    · refine iff_of_true rfl ?_
      rcases hcond with h | h | h
      · right; right
        by_contra hc
        rw [hhead, if_neg hc] at h
        exact Option.noConfusion h
      · left; exact h
      · right; left; exact h
    · push_neg at hcond
      obtain ⟨h1, h2, h3⟩ := hcond
      cases hx : l.head_clock with
      | none => exact absurd hx h1
      | some hd =>
        dsimp only
        constructor
        · intro hsome
          exact Option.noConfusion hsome
        · intro hrhs
          exfalso
          rcases hrhs with h | h | h
          · omega
          · omega
          · rw [hhead, if_pos h] at hx
            exact Option.noConfusion hx
  · intro k hk hklt
    subst hk
    unfold CircularClockList.get_clock_at_index
    have hcne : l.clock_count ≠ 0 := by omega
    rw [hhead, if_neg hcne]
    rw [if_neg (by
      push_neg
      refine ⟨by simp, by omega, by omega⟩)]
    dsimp only
    rw [Int.toNat_natCast, iterate_followNext_wf l hwf k 0 (by omega),
      Nat.zero_add, Nat.mod_eq_of_lt hklt]

/-- Claim C7 witness: index `5` is rejected and index `1` resolved on the
three-clock startup ring. -/
theorem get_clock_at_index_spec_witness :
    (clock_list.get_clock_at_index 5 = none ↔
      ((5 : Int) < 0 ∨ (clock_list.clock_count : Int) ≤ 5 ∨
        clock_list.clock_count = 0)) ∧
    clock_list.get_clock_at_index 1 = some 1 :=
  ⟨(get_clock_at_index_spec clock_list (ringWF_buildRing seedEntries) 5).1,
   (get_clock_at_index_spec clock_list (ringWF_buildRing seedEntries) 1).2 1 rfl (by decide)⟩

/-- Claim C8: appending with an unrecognized timezone identifier fails
with the propagated timezone error and returns the ring state completely
unchanged (same heap, head and count, hence every record's links), while
a successful append reports no error, increments the count and yields a
ring in which the new record is fully linked (well-formedness is
preserved). -/
theorem add_clock_atomic (l : CircularClockList) (c tz img : String) :
    (validTimezone tz = false →
      l.add_clock c tz img = (l, some "UnknownTimeZoneError")) ∧
    (validTimezone tz = true →
      (l.add_clock c tz img).2 = none ∧
      (l.add_clock c tz img).1.clock_count = l.clock_count + 1 ∧
      (ringWF l → ringWF (l.add_clock c tz img).1)) := by
  constructor
  · intro hv
    exact l.add_clock_invalid c img hv
  · intro hv
    exact ⟨(add_clock_success l c img hv).1,
      (add_clock_success l c img hv).2.1,
      fun hwf => ringWF_add_clock l c tz img hwf⟩

/-- Claim C8 witness: a fictitious timezone is rejected leaving the
startup ring untouched, and a recognized one appends successfully. -/
theorem add_clock_atomic_witness :
    clock_list.add_clock "Atlantis" "Atlantis/Central" "a.png" =
      (clock_list, some "UnknownTimeZoneError") ∧
    (clock_list.add_clock "Test" "UTC" "t.png").2 = none ∧
    (clock_list.add_clock "Test" "UTC" "t.png").1.clock_count =
      clock_list.clock_count + 1 :=
  ⟨(add_clock_atomic clock_list "Atlantis" "Atlantis/Central" "a.png").1
      (by decide),
   ((add_clock_atomic clock_list "Test" "UTC" "t.png").2 (by decide)).1,
   ((add_clock_atomic clock_list "Test" "UTC" "t.png").2 (by decide)).2.1⟩

/-- Claim C9: a successful append on a well-formed ring increments the
count and links the new record (carrying the given city) immediately
before the head as the new tail — on the empty ring it becomes the head
and links to itself in both directions; on a non-empty ring the head is
preserved, the new record's `next` is the head, its `previous` is the old
tail, the head's `previous` and the old tail's `next` both become the new
record.  Consequently, after the startup appends of "Colombia",
"United Kingdom" and "China", the head's successor is "United Kingdom"
and its predecessor is "China". -/
theorem add_clock_appends_as_tail (l : CircularClockList)
    (hwf : ringWF l) (c tz img : String)
    (hv : validTimezone tz = true) :
    ((l.add_clock c tz img).2 = none ∧
     (l.add_clock c tz img).1.clock_count = l.clock_count + 1 ∧
     ((l.add_clock c tz img).1.nodes l.clock_count).city_name = c ∧
     (l.head_clock = none →
       (l.add_clock c tz img).1.head_clock = some l.clock_count ∧
       ((l.add_clock c tz img).1.nodes l.clock_count).next_clock =
         some l.clock_count ∧
       ((l.add_clock c tz img).1.nodes l.clock_count).previous_clock =
         some l.clock_count) ∧
     (∀ hd, l.head_clock = some hd →
       (l.add_clock c tz img).1.head_clock = some hd ∧
       ((l.add_clock c tz img).1.nodes l.clock_count).next_clock =
         some hd ∧
       ((l.add_clock c tz img).1.nodes l.clock_count).previous_clock =
         some (l.clock_count - 1) ∧
       ((l.add_clock c tz img).1.nodes hd).previous_clock =
         some l.clock_count ∧
       ((l.add_clock c tz img).1.nodes
           (l.clock_count - 1)).next_clock = some l.clock_count)) ∧
    (clock_list.get_clock_at_index 0 = some 0 ∧
     (clock_list.nodes (clock_list.followNext 0)).city_name =
       "United Kingdom" ∧
     (clock_list.nodes (clock_list.followPrev 0)).city_name = "China") := by
  have hwg := ringWF_add_clock l c tz img hwf
  have hsucc := add_clock_success l c img hv
  have hcnt := hsucc.2.1
  refine ⟨⟨hsucc.1, hcnt, add_clock_new_city l c img hv, ?_, ?_⟩,
    by decide, by decide, by decide⟩
  · intro hh
    have hc0 : l.clock_count = 0 := by
      by_contra hc
      have h1 := hwf.1
      rw [hh, if_neg hc] at h1
      exact Option.noConfusion h1
    have hnew := hwg.2 l.clock_count (by rw [hcnt]; omega)
    rw [hcnt] at hnew
    refine ⟨?_, ?_, ?_⟩
    · have h2 := hsucc.2.2
      rw [hh] at h2
      exact h2
    · have hn := hnew.1
      rw [if_pos rfl] at hn
      rw [hc0] at hn ⊢
      exact hn
    · have hp := hnew.2
      rw [if_pos hc0, Nat.add_sub_cancel] at hp
      exact hp
  · intro hd hh
    have hcne : l.clock_count ≠ 0 := by
      intro h0
      have h1 := hwf.1
      rw [hh, if_pos h0] at h1
      exact Option.noConfusion h1
    have hd0 : hd = 0 := by
      have h1 := hwf.1
      rw [hh, if_neg hcne] at h1
      injection h1
    subst hd0
    have hnew := hwg.2 l.clock_count (by rw [hcnt]; omega)
    rw [hcnt] at hnew
    have hhead0 := hwg.2 0 (by rw [hcnt]; omega)
    rw [hcnt] at hhead0
    have htl := hwg.2 (l.clock_count - 1) (by rw [hcnt]; omega)
    rw [hcnt] at htl
    refine ⟨?_, ?_, ?_, ?_, ?_⟩
    · have h2 := hsucc.2.2
      rw [hh] at h2
      exact h2
    · have hn := hnew.1
      rw [if_pos rfl] at hn
      exact hn
    · have hp := hnew.2
      rw [if_neg hcne] at hp
      exact hp
    · have hp := hhead0.2
      rw [if_pos rfl, Nat.add_sub_cancel] at hp
      exact hp
    · have hn := htl.1
      rw [if_neg (by omega)] at hn
      have harg : l.clock_count - 1 + 1 = l.clock_count := by omega
      rw [harg] at hn
      exact hn

/-- Claim C9 witness: appending "China" to a two-clock ring evaluates the
insertion properties. -/
theorem add_clock_appends_as_tail_witness :
    (pairRing.add_clock "China" "Asia/Shanghai" "c.png").2 = none ∧
    (pairRing.add_clock "China" "Asia/Shanghai" "c.png").1.clock_count =
      pairRing.clock_count + 1 ∧
    ((pairRing.add_clock "China" "Asia/Shanghai" "c.png").1.nodes
      pairRing.clock_count).city_name = "China" := by
  have h := add_clock_appends_as_tail pairRing
    (ringWF_buildRing [("Alpha", "UTC", "a.png"), ("Beta", "UTC", "b.png")])
    "China" "Asia/Shanghai" "c.png" (by decide)
  exact ⟨h.1.1, h.1.2.1, h.1.2.2.1⟩

/-- The banker's rounding of a rational is within half a unit of it. -/
lemma roundHalfToEven_close (q : ℚ) :
    |(roundHalfToEven q : ℚ) - q| ≤ 1 / 2 := by
  simp only [roundHalfToEven]
  have h1 : ((⌊q⌋ : ℤ) : ℚ) ≤ q := Int.floor_le q
  have h2 : q < (⌊q⌋ : ℤ) + 1 := Int.lt_floor_add_one q
  split_ifs with ha hb hc
  · rw [abs_le]
    constructor <;> linarith
  · rw [abs_le]
    push_cast
    constructor <;> linarith
  · rw [abs_le]
    constructor <;> linarith
  · rw [abs_le]
    push_cast
    constructor <;> linarith

/-- `round(x, 2)` is within half of a hundredth of its argument. -/
lemma pyRound2_close (q : ℚ) : |pyRound2 q - q| ≤ 1 / 200 := by
  unfold pyRound2
  have hsplit : (roundHalfToEven (q * 100) : ℚ) / 100 - q =
      ((roundHalfToEven (q * 100) : ℚ) - q * 100) / 100 := by
    ring
  rw [hsplit, abs_div]
  have habs100 : |(100 : ℚ)| = 100 := by norm_num
  rw [habs100]
  linarith [roundHalfToEven_close (q * 100)]

/-- A counted visiting loop visits exactly as many nodes as counted. -/
lemma visitLoop_length (l : CircularClockList) (k cur : Nat) :
    (l.visitLoop cur k).length = k := by
  rw [visitLoop_eq_map]
  simp

/-- The `all_in_range` test of the meeting search, with its negated-or
flag update, is membership of `[start_hour, end_hour)`. -/
lemma in_range_bool (s e a : Int) :
    (!(decide (a < s) || decide (e ≤ a))) =
      (decide (s ≤ a) && decide (a < e)) := by
  by_cases h1 : a < s
  · have h3 : ¬ s ≤ a := by omega
    simp [h1, h3]
  · by_cases h2 : e ≤ a
    · have h3 : ¬ a < e := by omega
      simp [h2, h3]
    · have h3 : s ≤ a := by omega
      have h4 : a < e := by omega
      simp [h1, h2, h3, h4]

/-- Mapping the reference hour over a guarded `filterMap` recovers the
filtered input hours. -/
lemma map_ref_filterMap (g : Nat → MeetingOption) (p : Nat → Bool)
    (hg : ∀ a, (g a).reference_hour = a) :
    ∀ xs : List Nat,
      ((xs.filterMap (fun a => if p a then some (g a) else none)).map
        (fun o => o.reference_hour)) = xs.filter p := by
  intro xs
  induction xs with
  | nil => rfl
  | cons x xs ih =>
    by_cases hx : p x
    · simp [List.filterMap_cons, List.filter_cons, hx, hg, ih]
    · simp [List.filterMap_cons, List.filter_cons, hx, ih]

/-- Claim C5: on a non-empty ring, `find_optimal_meeting_time` returns,
in strictly increasing order, exactly those reference hours `h` of
`[0, 24)` for which every record's hour field — after substituting
`hour = h` with minute and second zeroed — lies in
`[start_hour, end_hour)`; every returned entry carries quality
"excellent" and the per-record formatted time labels, and with
`start_hour = 9`, `end_hour = 17` the hour `8` never appears. -/
theorem find_optimal_meeting_time_spec (l : CircularClockList)
    (env : TimeEnv) (start_hour end_hour : Int) (h0 : Nat)
    (hh : l.head_clock = some h0) (hcne : l.clock_count ≠ 0) :
    ((l.find_optimal_meeting_time env start_hour end_hour).map
        (fun o => o.reference_hour) =
      (List.range 24).filter (fun hour =>
        (l.ringNodes).all (fun i =>
          decide (start_hour ≤
              (((env i).replaceHMS hour 0 0).hour : Int)) &&
            decide ((((env i).replaceHMS hour 0 0).hour : Int) <
              end_hour)))) ∧
    List.Pairwise (fun a b => a < b)
      ((l.find_optimal_meeting_time env start_hour end_hour).map
        (fun o => o.reference_hour)) ∧
    (∀ o ∈ l.find_optimal_meeting_time env start_hour end_hour,
      o.quality = "excellent" ∧
      o.reference_hour < 24 ∧
      start_hour ≤ (o.reference_hour : Int) ∧
      (o.reference_hour : Int) < end_hour ∧
      o.times = (l.ringNodes).map (fun i =>
        ({ city := (l.nodes i).city_name
           time := ((env i).replaceHMS o.reference_hour 0 0).formatTime12h
           hour := ((env i).replaceHMS o.reference_hour 0 0).hour } :
          MeetingClockTime))) ∧
    (start_hour = 9 → end_hour = 17 →
      ∀ o ∈ l.find_optimal_meeting_time env start_hour end_hour,
        o.reference_hour ≠ 8) := by
  have hring : l.ringNodes = l.visitLoop h0 l.clock_count := by
    unfold CircularClockList.ringNodes
    rw [hh]
  have hvne : l.visitLoop h0 l.clock_count ≠ [] := by
    intro hnil
    have hlen := visitLoop_length l l.clock_count h0
    rw [hnil] at hlen
    simp at hlen
    exact hcne hlen.symm
  unfold CircularClockList.find_optimal_meeting_time
  rw [hh, hring]
  dsimp only
  simp only [in_range_bool]
  have hmap :
      ((List.range 24).filterMap (fun hour =>
          if (l.visitLoop h0 l.clock_count).all (fun i =>
              decide (start_hour ≤
                  (((env i).replaceHMS hour 0 0).hour : Int)) &&
                decide ((((env i).replaceHMS hour 0 0).hour : Int) <
                  end_hour)) = true then
            some ({ reference_hour := hour
                    times := (l.visitLoop h0 l.clock_count).map (fun i =>
                      ({ city := (l.nodes i).city_name
                         time :=
                           ((env i).replaceHMS hour 0 0).formatTime12h
                         hour := ((env i).replaceHMS hour 0 0).hour } :
                        MeetingClockTime))
                    quality := "excellent" } : MeetingOption)
          else none)).map (fun o => o.reference_hour) =
      (List.range 24).filter (fun hour =>
        (l.visitLoop h0 l.clock_count).all (fun i =>
          decide (start_hour ≤
              (((env i).replaceHMS hour 0 0).hour : Int)) &&
            decide ((((env i).replaceHMS hour 0 0).hour : Int) <
              end_hour))) := by
    exact map_ref_filterMap _ _ (fun a => rfl) _
  have hmem : ∀ o, (o ∈ (List.range 24).filterMap (fun hour =>
      if (l.visitLoop h0 l.clock_count).all (fun i =>
          decide (start_hour ≤
              (((env i).replaceHMS hour 0 0).hour : Int)) &&
            decide ((((env i).replaceHMS hour 0 0).hour : Int) <
              end_hour)) = true then
        some ({ reference_hour := hour
                times := (l.visitLoop h0 l.clock_count).map (fun i =>
                  ({ city := (l.nodes i).city_name
                     time := ((env i).replaceHMS hour 0 0).formatTime12h
                     hour := ((env i).replaceHMS hour 0 0).hour } :
                    MeetingClockTime))
                quality := "excellent" } : MeetingOption)
      else none)) →
      o.quality = "excellent" ∧
      o.reference_hour < 24 ∧
      start_hour ≤ (o.reference_hour : Int) ∧
      (o.reference_hour : Int) < end_hour ∧
      o.times = (l.visitLoop h0 l.clock_count).map (fun i =>
        ({ city := (l.nodes i).city_name
           time := ((env i).replaceHMS o.reference_hour 0 0).formatTime12h
           hour := ((env i).replaceHMS o.reference_hour 0 0).hour } :
          MeetingClockTime)) := by
    intro o ho
    rw [List.mem_filterMap] at ho
    obtain ⟨a, ha, hfa⟩ := ho
    rw [List.mem_range] at ha
    by_cases hc : (l.visitLoop h0 l.clock_count).all (fun i =>
        decide (start_hour ≤ (((env i).replaceHMS a 0 0).hour : Int)) &&
          decide ((((env i).replaceHMS a 0 0).hour : Int) <
            end_hour)) = true
    · rw [if_pos hc] at hfa
      obtain ⟨i0, hi0⟩ := List.exists_mem_of_ne_nil _ hvne
      rw [List.all_eq_true] at hc
      have hbound := hc i0 hi0
      rw [Bool.and_eq_true, decide_eq_true_iff, decide_eq_true_iff]
        at hbound
      have hsub : ((env i0).replaceHMS a 0 0).hour = a := rfl
      rw [hsub] at hbound
      cases hfa
      exact ⟨rfl, ha, hbound.1, hbound.2, rfl⟩
    · rw [if_neg hc] at hfa
      exact Option.noConfusion hfa
  refine ⟨hmap, ?_, hmem, ?_⟩
  · rw [hmap]
    exact List.Pairwise.filter _ (List.pairwise_lt_range 24)
  · intro h9 h17 o ho
    have hb := hmem o ho
    subst h9
    have : (9 : Int) ≤ (o.reference_hour : Int) := hb.2.2.1
    omega

/-- Claim C5 witness: the startup ring queried with business hours
`[9, 17)` never reports hour 8, and reports its hours in increasing
order. -/
theorem find_optimal_meeting_time_spec_witness :
    (∀ o ∈ clock_list.find_optimal_meeting_time envDifference 9 17,
      o.reference_hour ≠ 8) ∧
    List.Pairwise (fun a b => a < b)
      ((clock_list.find_optimal_meeting_time envDifference 9 17).map
        (fun o => o.reference_hour)) := by
  have h := find_optimal_meeting_time_spec clock_list envDifference 9 17 0
    (by decide) (by decide)
  exact ⟨h.2.2.2 rfl rfl, h.2.1⟩

/-- Claim C6: `get_dominant_theme` answers "day" exactly when at least
half of the traversed records are in daytime (`count ≤ 2 * day_count`,
the exact rational comparison `day_count ≥ count / 2` of the code), the
only other answer is "night", the empty ring defaults to "day", and on a
ring with a head the traversal length is `clock_count`. -/
theorem dominant_theme_spec (l : CircularClockList) (env : TimeEnv) :
    (l.get_dominant_theme env = "day" ↔
      l.ringNodes.length ≤
        2 * (l.ringNodes.countP (fun i => ClockNode.is_daytime (env i)))) ∧
    (l.get_dominant_theme env = "day" ∨
      l.get_dominant_theme env = "night") ∧
    (l.head_clock = none → l.get_dominant_theme env = "day") ∧
    (l.head_clock ≠ none → l.ringNodes.length = l.clock_count) := by
  unfold CircularClockList.get_dominant_theme CircularClockList.ringNodes
  cases hx : l.head_clock with
  | none =>
    refine ⟨?_, Or.inl rfl, fun _ => rfl, fun hne => absurd rfl hne⟩
    simp
  | some h =>
    dsimp only
    have hlen := visitLoop_length l l.clock_count h
    refine ⟨?_, ?_, fun hcontra => Option.noConfusion hcontra,
      fun _ => hlen⟩
    · split_ifs with hcond
      · refine iff_of_true rfl ?_
        rw [hlen]
        rw [div_le_iff₀ (by norm_num : (0:ℚ) < 2)] at hcond
        have h2 : (l.clock_count : ℚ) ≤
            2 * (((l.visitLoop h l.clock_count).countP
              (fun i => ClockNode.is_daytime (env i))) : ℚ) := by
          linarith
        exact_mod_cast h2
      · refine iff_of_false (by decide) ?_
        rw [hlen]
        intro hcontra
        apply hcond
        rw [div_le_iff₀ (by norm_num : (0:ℚ) < 2)]
        have h2 : (l.clock_count : ℚ) ≤
            2 * (((l.visitLoop h l.clock_count).countP
              (fun i => ClockNode.is_daytime (env i))) : ℚ) := by
          exact_mod_cast hcontra
        linarith
    · split_ifs
      · exact Or.inl rfl
      · exact Or.inr rfl

/-- Claim C6 witness: the two-clock tie (one daytime record of two)
resolves to "day", and the empty ring defaults to "day". -/
theorem dominant_theme_spec_witness :
    pairRing.get_dominant_theme envThemeTie = "day" ∧
    CircularClockList.empty.get_dominant_theme envThemeTie = "day" :=
  ⟨(dominant_theme_spec pairRing envThemeTie).1.mpr (by decide),
   (dominant_theme_spec CircularClockList.empty envThemeTie).2.2.1 rfl⟩

/-- A rational strictly within half a unit of an integer rounds to that
integer. -/
lemma rhe_eq_of_abs_lt_half (y : ℚ) (n : ℤ) (h : |y - (n:ℚ)| < 1/2) :
    roundHalfToEven y = n := by
  rw [abs_lt] at h
  by_cases hge : (n:ℚ) ≤ y
  · have hfl : ⌊y⌋ = n := by
      rw [Int.floor_eq_iff]
      refine ⟨hge, ?_⟩
      linarith [h.2]
    simp only [roundHalfToEven, hfl]
    rw [if_pos h.2]
  · push_neg at hge
    have hfl : ⌊y⌋ = n - 1 := by
      rw [Int.floor_eq_iff]
      constructor
      · push_cast
        linarith [h.1]
      · push_cast
        linarith
    simp only [roundHalfToEven, hfl]
    rw [if_neg (by push_cast; linarith [h.1]),
      if_pos (by push_cast; linarith [h.1])]
    omega

/-- Rounding an integer returns it. -/
lemma rhe_intCast (n : ℤ) : roundHalfToEven ((n:ℤ):ℚ) = n :=
  rhe_eq_of_abs_lt_half _ n (by norm_num)

/-- Rounding preserves non-negativity. -/
lemma rhe_nonneg (y : ℚ) (hy : 0 ≤ y) : 0 ≤ roundHalfToEven y := by
  have h0 : 0 ≤ ⌊y⌋ := Int.floor_nonneg.mpr hy
  simp only [roundHalfToEven]
  split_ifs <;> omega

/-- The power sandwich of `Int.log 2`. -/
lemma log2_sandwich (x : ℚ) (hx : 0 < x) :
    (2:ℚ) ^ (Int.log 2 x) ≤ x ∧ x < (2:ℚ) ^ (Int.log 2 x + 1) := by
  have h1 : ((2:ℕ):ℚ) ^ (Int.log 2 x) ≤ x :=
    Int.zpow_log_le_self (by norm_num) hx
  have h2 : x < ((2:ℕ):ℚ) ^ (Int.log 2 x + 1) :=
    Int.lt_zpow_succ_log_self (by norm_num) x
  norm_num at h1 h2
  exact ⟨h1, h2⟩

/-- `Int.log 2` is characterized by the power sandwich. -/
lemma log2_eq_of_bounds (q : ℚ) (e : ℤ) (hq : 0 < q)
    (h1 : (2:ℚ)^e ≤ q) (h2 : q < (2:ℚ)^(e+1)) : Int.log 2 q = e := by
  have ha : e ≤ Int.log 2 q := by
    rw [← Int.zpow_le_iff_le_log (by norm_num) hq]
    exact_mod_cast h1
  have hb : Int.log 2 q < e + 1 := by
    rw [← Int.lt_zpow_iff_log_lt (by norm_num) hq]
    exact_mod_cast h2
  omega

/-- `fl` of zero. -/
lemma fl_zero : fl 0 = 0 := by
  simp [fl]

/-- Unfold `fl` on a value whose binade is known. -/
lemma fl_eq_of_bounds (q : ℚ) (e : ℤ) (hq : q ≠ 0)
    (h1 : (2:ℚ)^e ≤ |q|) (h2 : |q| < (2:ℚ)^(e+1)) :
    fl q = (roundHalfToEven (q * (2:ℚ) ^ ((52:ℤ) - e)) : ℚ) *
      (2:ℚ) ^ (e - 52) := by
  have hlog : Int.log 2 |q| = e :=
    log2_eq_of_bounds _ e (abs_pos.mpr hq) h1 h2
  simp only [fl, if_neg hq, hlog]

/-- Binary64 rounding has relative error at most one part in `2^53`. -/
lemma fl_close (q : ℚ) : |fl q - q| ≤ |q| / 2 ^ 53 := by
  by_cases h0 : q = 0
  · simp [fl, h0]
  · have habs : 0 < |q| := abs_pos.mpr h0
    obtain ⟨h1, -⟩ := log2_sandwich |q| habs
    simp only [fl, if_neg h0]
    set e := Int.log 2 |q| with he
    set y := q * (2:ℚ) ^ ((52:ℤ) - e) with hy
    have hpow : (2:ℚ) ^ ((52:ℤ) - e) * (2:ℚ) ^ (e - 52) = 1 := by
      rw [← zpow_add₀ (by norm_num : (2:ℚ) ≠ 0)]
      norm_num
    have hpos : (0:ℚ) < (2:ℚ) ^ (e - 52) := zpow_pos (by norm_num) _
    have hval : (roundHalfToEven y : ℚ) * (2:ℚ) ^ (e - 52) - q =
        ((roundHalfToEven y : ℚ) - y) * (2:ℚ) ^ (e - 52) := by
      rw [hy, sub_mul, mul_assoc, hpow, mul_one]
    rw [hval, abs_mul, abs_of_pos hpos]
    have hstep : |(roundHalfToEven y : ℚ) - y| * (2:ℚ) ^ (e - 52) ≤
        (1/2) * (2:ℚ) ^ (e - 52) :=
      mul_le_mul_of_nonneg_right (roundHalfToEven_close y) (le_of_lt hpos)
    refine le_trans hstep ?_
    have hsplit : (1/2 : ℚ) * (2:ℚ) ^ (e - 52) =
        (2:ℚ) ^ e * (1 / 2 ^ 53) := by
      rw [show (e - 52 : ℤ) = e + (-52) by ring,
        zpow_add₀ (by norm_num : (2:ℚ) ≠ 0)]
      rw [show ((2:ℚ) ^ (-52 : ℤ)) = 1 / 2 ^ 52 by norm_num]
      ring
    rw [hsplit]
    have hmono : (2:ℚ) ^ e * (1 / 2 ^ 53) ≤ |q| * (1 / 2 ^ 53) :=
      mul_le_mul_of_nonneg_right h1 (by positivity)
    refine le_trans hmono ?_
    rw [mul_one_div]

/-- Binary64 rounding preserves non-negativity. -/
lemma fl_nonneg (q : ℚ) (hq : 0 ≤ q) : 0 ≤ fl q := by
  by_cases h0 : q = 0
  · simp [fl, h0]
  · simp only [fl, if_neg h0]
    have h1 : (0:ℚ) ≤
        (roundHalfToEven (q * (2:ℚ)^((52:ℤ) - Int.log 2 |q|)) : ℚ) := by
      have hnn : 0 ≤ q * (2:ℚ)^((52:ℤ) - Int.log 2 |q|) :=
        mul_nonneg hq (le_of_lt (zpow_pos (by norm_num) _))
      exact_mod_cast rhe_nonneg _ hnn
    exact mul_nonneg h1 (le_of_lt (zpow_pos (by norm_num) _))

/-- Integers of magnitude at most `2^52` are exact binary64 values. -/
lemma fl_intCast (n : ℤ) (hn : |n| ≤ 2 ^ 52) : fl ((n:ℤ):ℚ) = n := by
  by_cases h0 : n = 0
  · simp [h0, fl]
  · have hne : ((n:ℚ)) ≠ 0 := Int.cast_ne_zero.mpr h0
    have habs : (0:ℚ) < |(n:ℚ)| := abs_pos.mpr hne
    obtain ⟨hle, hlt⟩ := log2_sandwich _ habs
    set e := Int.log 2 |(n:ℚ)| with he
    have habsn : |(n:ℚ)| ≤ (2:ℚ) ^ (52:ℕ) := by
      rw [← Int.cast_abs]
      exact_mod_cast hn
    have he52 : e ≤ 52 := by
      by_contra hc
      push_neg at hc
      have h53 : (2:ℚ) ^ (53:ℤ) ≤ (2:ℚ) ^ e :=
        zpow_le_zpow_right₀ (by norm_num) (by omega)
      have hcontra : (2:ℚ) ^ (53:ℤ) ≤ (2:ℚ) ^ (52:ℕ) :=
        le_trans h53 (le_trans hle habsn)
      norm_num at hcontra
    obtain ⟨k, hk⟩ : ∃ k : ℕ, (52:ℤ) - e = (k:ℤ) := ⟨((52:ℤ) - e).toNat, by omega⟩
    have hy : (n:ℚ) * (2:ℚ)^((52:ℤ) - e) = (((n * 2^k : ℤ)):ℚ) := by
      rw [hk, zpow_natCast]
      push_cast
      ring
    simp only [fl, if_neg hne, ← he]
    rw [hy, rhe_intCast,
      show (((n * 2^k : ℤ)):ℚ) = (n:ℚ) * (2:ℚ)^((52:ℤ) - e) from hy.symm,
      mul_assoc, ← zpow_add₀ (by norm_num : (2:ℚ) ≠ 0),
      show ((52:ℤ) - e + (e - 52) : ℤ) = 0 by ring]
    norm_num

/-- Rounding to two decimals is insensitive to perturbations up to
`2^-47` of an exact multiple of a sixtieth: such a multiple scaled by
100 has fractional part `0`, `1/3` or `2/3`, hence sits at distance at
least `1/6` from every rounding boundary. -/
lemma pyRound2_eq_of_close (x : ℚ) (delta : ℤ)
    (hc : |x - (delta:ℚ)/60| ≤ 1/2^47) :
    pyRound2 x = pyRound2 ((delta:ℚ)/60) := by
  obtain ⟨t, s, hts, hs0, hs3⟩ :
      ∃ t s : ℤ, 5*delta = 3*t + s ∧ 0 ≤ s ∧ s < 3 :=
    ⟨(5*delta)/3, (5*delta)%3, by omega, by omega, by omega⟩
  have htsq : (5:ℚ) * (delta:ℚ) = 3*(t:ℚ) + (s:ℚ) := by exact_mod_cast hts
  have hy0 : (delta:ℚ)/60*100 = (t:ℚ) + (s:ℚ)/3 := by
    field_simp
    linarith
  have hd : |x*100 - (delta:ℚ)/60*100| ≤ 100/2^47 := by
    have hmul : x*100 - (delta:ℚ)/60*100 = (x - (delta:ℚ)/60)*100 := by
      ring
    rw [hmul, abs_mul, abs_of_pos (by norm_num : (0:ℚ) < 100)]
    linarith
  have hn0 : ∃ n0 : ℤ, roundHalfToEven ((delta:ℚ)/60*100) = n0 ∧
      |(delta:ℚ)/60*100 - (n0:ℚ)| ≤ 1/3 := by
    have hs : s = 0 ∨ s = 1 ∨ s = 2 := by omega
    rcases hs with h | h | h
    · refine ⟨t, ?_, ?_⟩
      · rw [hy0, h]
        norm_num
        exact rhe_intCast t
      · rw [hy0, h]
        norm_num
    · refine ⟨t, ?_, ?_⟩
      · rw [hy0, h]
        refine rhe_eq_of_abs_lt_half _ _ ?_
        rw [show ((t:ℚ) + (1:ℤ)/3 - (t:ℚ)) = 1/3 by push_cast; ring,
          abs_of_pos (by norm_num : (0:ℚ) < 1/3)]
        norm_num
      · rw [hy0, h]
        rw [show ((t:ℚ) + ((1:ℤ):ℚ)/3 - (t:ℚ)) = 1/3 by push_cast; ring,
          abs_of_pos (by norm_num : (0:ℚ) < 1/3)]
    · refine ⟨t + 1, ?_, ?_⟩
      · rw [hy0, h]
        refine rhe_eq_of_abs_lt_half _ _ ?_
        rw [show ((t:ℚ) + ((2:ℤ):ℚ)/3 - ((t + 1 : ℤ):ℚ)) = -(1/3) by
          push_cast; ring, abs_neg,
          abs_of_pos (by norm_num : (0:ℚ) < 1/3)]
        norm_num
      · rw [hy0, h]
        rw [show ((t:ℚ) + ((2:ℤ):ℚ)/3 - ((t + 1 : ℤ):ℚ)) = -(1/3) by
          push_cast; ring, abs_neg,
          abs_of_pos (by norm_num : (0:ℚ) < 1/3)]
  obtain ⟨n0, hrhe0, hdist0⟩ := hn0
  have hrhe : roundHalfToEven (x*100) = n0 := by
    refine rhe_eq_of_abs_lt_half _ _ ?_
    have h1 : |x*100 - (n0:ℚ)| ≤
        |x*100 - (delta:ℚ)/60*100| + |(delta:ℚ)/60*100 - (n0:ℚ)| := by
      have := abs_add (x*100 - (delta:ℚ)/60*100)
        ((delta:ℚ)/60*100 - (n0:ℚ))
      calc |x*100 - (n0:ℚ)| =
          |(x*100 - (delta:ℚ)/60*100) + ((delta:ℚ)/60*100 - (n0:ℚ))| := by
            ring_nf
        _ ≤ _ := this
    have h2 : (100:ℚ)/2^47 + 1/3 < 1/2 := by norm_num
    linarith
  unfold pyRound2
  rw [hrhe, hrhe0]

/-- The binary64 evaluation of `(h2-h1) + (m2-m1)/60` is within `2^-47`
of the exact value, and is exact when the minute parts agree. -/
lemma float_diff_close (dh dm : ℤ) (hdh : |dh| < 24) (hdm : |dm| < 60) :
    |fl ((dh:ℚ) + fl ((dm:ℚ)/60)) - ((60*dh + dm : ℤ) : ℚ)/60| ≤
      1/2^47 ∧
    (dm = 0 → fl ((dh:ℚ) + fl ((dm:ℚ)/60)) = (dh:ℚ)) := by
  have hex : dm = 0 → fl ((dh:ℚ) + fl ((dm:ℚ)/60)) = (dh:ℚ) := by
    intro h0
    subst h0
    rw [show (((0:ℤ):ℚ))/60 = 0 by norm_num, fl_zero, add_zero]
    have := fl_intCast dh (le_trans hdh.le (by norm_num))
    exact_mod_cast this
  refine ⟨?_, hex⟩
  have hsplit : ((60*dh + dm : ℤ) : ℚ)/60 = (dh:ℚ) + (dm:ℚ)/60 := by
    push_cast
    ring
  rw [hsplit]
  by_cases h0 : dm = 0
  · rw [hex h0, h0]
    norm_num
  · set d1 := fl ((dm:ℚ)/60) with hd1
    have hdmq : |(dm:ℚ)| ≤ 60 := by
      rw [← Int.cast_abs]
      exact_mod_cast hdm.le
    have hdm60 : |(dm:ℚ)/60| ≤ 1 := by
      rw [abs_div, abs_of_pos (by norm_num : (0:ℚ) < 60)]
      rw [div_le_one (by norm_num : (0:ℚ) < 60)]
      exact hdmq
    have h1 : |d1 - (dm:ℚ)/60| ≤ 1/2^53 := by
      calc |d1 - (dm:ℚ)/60| ≤ |(dm:ℚ)/60|/2^53 := fl_close _
        _ ≤ 1/2^53 := by gcongr
    have hdhq : |(dh:ℚ)| ≤ 24 := by
      rw [← Int.cast_abs]
      exact_mod_cast hdh.le
    have hd1b : |d1| ≤ 2 := by
      have htr := abs_sub_abs_le_abs_sub d1 ((dm:ℚ)/60)
      linarith
    have hx : |(dh:ℚ) + d1| ≤ 26 := by
      calc |(dh:ℚ) + d1| ≤ |(dh:ℚ)| + |d1| := abs_add _ _
        _ ≤ 26 := by linarith
    by_cases hx0 : (dh:ℚ) + d1 = 0
    · rw [show fl ((dh:ℚ) + d1) = 0 by rw [hx0, fl_zero]]
      have hval : (dh:ℚ) + (dm:ℚ)/60 = -(d1 - (dm:ℚ)/60) := by
        linarith
      rw [zero_sub, hval, abs_neg, abs_neg]
      calc |d1 - (dm:ℚ)/60| ≤ 1/2^53 := h1
        _ ≤ 1/2^47 := by norm_num
    · have h2 : |fl ((dh:ℚ) + d1) - ((dh:ℚ) + d1)| ≤ 26/2^53 := by
        calc |fl ((dh:ℚ) + d1) - ((dh:ℚ) + d1)| ≤
            |(dh:ℚ) + d1|/2^53 := fl_close _
          _ ≤ 26/2^53 := by gcongr
      calc |fl ((dh:ℚ) + d1) - ((dh:ℚ) + (dm:ℚ)/60)|
          = |(fl ((dh:ℚ) + d1) - ((dh:ℚ) + d1)) + (d1 - (dm:ℚ)/60)| := by
            ring_nf
        _ ≤ |fl ((dh:ℚ) + d1) - ((dh:ℚ) + d1)| + |d1 - (dm:ℚ)/60| :=
            abs_add _ _
        _ ≤ 26/2^53 + 1/2^53 := add_le_add h2 h1
        _ ≤ 1/2^47 := by norm_num

/-- Behavior of `_format_time_difference` on the binary64 value of a
time difference: the printed whole hours are the exact `|delta| / 60`
and the direction is the exact sign, but the printed minutes — Python's
`int((abs_hours - whole_hours) * 60)` on doubles — are only guaranteed
to be the exact `|delta| % 60` or one less. -/
lemma format_time_difference_float_spec (x : ℚ) (delta : ℤ)
    (hclose : |x - (delta:ℚ)/60| ≤ 1/2^47)
    (hexact : delta % 60 = 0 → x = (delta:ℚ)/60) :
    ∃ mins : ℤ,
      0 ≤ mins ∧ (delta.natAbs : ℤ) % 60 - 1 ≤ mins ∧
      mins ≤ (delta.natAbs : ℤ) % 60 ∧
      CircularClockList.format_time_difference x =
        (if mins = 0 then
           toString ((delta.natAbs : ℤ) / 60) ++ " hours " ++
             (if 0 < delta then "ahead" else "behind")
         else
           toString ((delta.natAbs : ℤ) / 60) ++ "h " ++
             toString mins ++ "m " ++
             (if 0 < delta then "ahead" else "behind")) := by
  have habs_cast : ((delta.natAbs : ℤ) : ℚ) = |(delta:ℚ)| := by
    simp [Int.cast_natAbs]
  set A : ℤ := (delta.natAbs : ℤ) with hAdef
  set W : ℤ := A / 60 with hWdef
  set M : ℤ := A % 60 with hMdef
  have hAW : A = 60*W + M := by omega
  have hM0 : 0 ≤ M := by omega
  have hM59 : M ≤ 59 := by omega
  have hAq : (A:ℚ) = 60*(W:ℚ) + (M:ℚ) := by exact_mod_cast hAW
  have hMq0 : (0:ℚ) ≤ (M:ℚ) := by exact_mod_cast hM0
  have hMq59 : (M:ℚ) ≤ 59 := by exact_mod_cast hM59
  have hdir : (0 < x) ↔ (0 < delta) := by
    constructor
    · intro hx
      by_contra hcneg
      push_neg at hcneg
      rcases hcneg.lt_or_eq with hlt | heq
      · have hd1 : (delta:ℚ) ≤ -1 := by
          exact_mod_cast (by omega : delta ≤ -1)
        have hb := (abs_le.mp hclose).2
        have hd2 : (delta:ℚ)/60 ≤ -1/60 := by linarith
        linarith [show (1:ℚ)/2^47 < 1/60 by norm_num]
      · have hx0 : x = 0 := by
          have hxe := hexact (by omega)
          rw [hxe, heq]
          norm_num
        rw [hx0] at hx
        exact lt_irrefl _ hx
    · intro hd
      have h1q : (1:ℚ) ≤ (delta:ℚ) := by
        exact_mod_cast (by omega : (1:ℤ) ≤ delta)
      have hb := (abs_le.mp hclose).1
      have hd2 : (1:ℚ)/60 ≤ (delta:ℚ)/60 := by linarith
      linarith [show (1:ℚ)/2^47 < 1/60 by norm_num]
  have hdirstr : (if 0 < x then "ahead" else "behind") =
      (if 0 < delta then "ahead" else "behind") := by
    simp only [hdir]
  have habsx : |x| - (A:ℚ)/60 ≤ 1/2^47 ∧ -(1/2^47) ≤ |x| - (A:ℚ)/60 := by
    have h1 := abs_abs_sub_abs_le_abs_sub x ((delta:ℚ)/60)
    have h2 : |(delta:ℚ)/60| = (A:ℚ)/60 := by
      rw [abs_div, abs_of_pos (by norm_num : (0:ℚ) < 60), habs_cast]
    rw [h2] at h1
    have h3 := le_trans h1 hclose
    have h4 := abs_le.mp h3
    exact ⟨h4.2, h4.1⟩
  have hAdiv : (A:ℚ)/60 = (W:ℚ) + (M:ℚ)/60 := by
    rw [div_eq_iff (by norm_num : (60:ℚ) ≠ 0)]
    linarith [hAq]
  by_cases hm0 : delta % 60 = 0
  · -- the minute parts cancel: the whole chain is exact
    have hxq : x = (delta:ℚ)/60 := hexact hm0
    set k : ℤ := delta / 60 with hkdef
    have hk : delta = 60 * k := by omega
    set K : ℤ := (k.natAbs : ℤ) with hKdef
    have hMk : M = 0 := by omega
    have hWk : W = K := by omega
    have hxk : x = (k:ℚ) := by
      rw [hxq, hk]
      push_cast
      field_simp
    have hxabs : |x| = ((K:ℤ):ℚ) := by
      have h1 : |x| = ((|k| : ℤ):ℚ) := by rw [hxk, Int.cast_abs]
      rw [h1]
      congr 1
      rw [hKdef]
      exact Int.abs_eq_natAbs k
    have hfloor : ⌊|x|⌋ = K := by rw [hxabs]; exact Int.floor_intCast K
    have hfrac : |x| - ((K:ℤ):ℚ) = 0 := by rw [hxabs]; ring
    simp only [CircularClockList.format_time_difference]
    rw [hfloor, hfrac, fl_zero, zero_mul, fl_zero, Int.floor_zero]
    refine ⟨0, le_refl 0, by omega, by omega, ?_⟩
    rw [if_pos rfl, if_pos rfl, hWk, hdirstr]
  · -- at least one live minute: floor stability plus rounding drift
    have hM1 : 1 ≤ M := by omega
    have hMq1 : (1:ℚ) ≤ (M:ℚ) := by exact_mod_cast hM1
    have hfloor : ⌊|x|⌋ = W := by
      rw [Int.floor_eq_iff]
      constructor
      · have h1 : (W:ℚ) + 1/60 - 1/2^47 ≤ |x| := by
          have := habsx.2
          linarith [hAdiv]
        linarith [show (0:ℚ) < 1/60 - 1/2^47 by norm_num]
      · have h1 : |x| ≤ (W:ℚ) + 59/60 + 1/2^47 := by
          have := habsx.1
          linarith [hAdiv]
        linarith [show (59:ℚ)/60 + 1/2^47 < 1 by norm_num]
    set v : ℚ := |x| - ((W:ℤ):ℚ) with hvdef
    have hv_lo : (M:ℚ)/60 - 1/2^47 ≤ v := by
      have := habsx.2
      rw [hvdef]
      linarith [hAdiv]
    have hv_hi : v ≤ (M:ℚ)/60 + 1/2^47 := by
      have := habsx.1
      rw [hvdef]
      linarith [hAdiv]
    have hv_pos : 0 < v := by
      have h160 : (1:ℚ)/60 ≤ (M:ℚ)/60 := by linarith
      linarith [show (0:ℚ) < 1/60 - 1/2^47 by norm_num]
    have hv_lt1 : v < 1 := by
      have h5960 : (M:ℚ)/60 ≤ 59/60 := by linarith
      linarith [show (59:ℚ)/60 + 1/2^47 < 1 by norm_num]
    set f1 : ℚ := fl v with hf1def
    have hf1_err : |f1 - v| ≤ 1/2^53 := by
      have h1 := fl_close v
      rw [abs_of_pos hv_pos] at h1
      have h2 : v/2^53 ≤ 1/2^53 := by linarith
      linarith [h1]
    have hf1_nonneg : 0 ≤ f1 := fl_nonneg v hv_pos.le
    have hf1_bounds := abs_le.mp hf1_err
    have hf1_hi : f1 ≤ 1 := by
      have h5960 : (M:ℚ)/60 ≤ 59/60 := by linarith
      have := hf1_bounds.2
      linarith [show (59:ℚ)/60 + 1/2^47 + 1/2^53 ≤ 1 by norm_num]
    set p : ℚ := fl (f1 * 60) with hpdef
    have hp_nonneg : 0 ≤ p :=
      fl_nonneg _ (mul_nonneg hf1_nonneg (by norm_num))
    have hp_err : |p - f1*60| ≤ 60/2^53 := by
      have h1 := fl_close (f1 * 60)
      rw [abs_mul, abs_of_nonneg hf1_nonneg,
        abs_of_pos (by norm_num : (0:ℚ) < 60)] at h1
      have h2 : f1*60/2^53 ≤ 60/2^53 := by linarith
      linarith [h1]
    have hp_bounds := abs_le.mp hp_err
    have hpM_lo : (M:ℚ) - 1/2^40 ≤ p := by
      have h1 : (M:ℚ)/60 - 1/2^47 - 1/2^53 ≤ f1 := by
        linarith [hf1_bounds.1]
      have h2 : (M:ℚ) - 60/2^47 - 60/2^53 ≤ f1*60 := by linarith
      have h3 : (M:ℚ) - 60/2^47 - 60/2^53 - 60/2^53 ≤ p := by
        linarith [hp_bounds.1]
      linarith [show (60:ℚ)/2^47 + 60/2^53 + 60/2^53 ≤ 1/2^40 by norm_num]
    have hpM_hi : p ≤ (M:ℚ) + 1/2^40 := by
      have h1 : f1 ≤ (M:ℚ)/60 + 1/2^47 + 1/2^53 := by
        linarith [hf1_bounds.2]
      have h2 : f1*60 ≤ (M:ℚ) + 60/2^47 + 60/2^53 := by linarith
      have h3 : p ≤ (M:ℚ) + 60/2^47 + 60/2^53 + 60/2^53 := by
        linarith [hp_bounds.2]
      linarith [show (60:ℚ)/2^47 + 60/2^53 + 60/2^53 ≤ 1/2^40 by norm_num]
    have hm_lo : M - 1 ≤ ⌊p⌋ := by
      rw [Int.le_floor]
      push_cast
      linarith [show (1:ℚ)/2^40 < 1 by norm_num]
    have hm_hi : ⌊p⌋ ≤ M := by
      have h1 : ((⌊p⌋:ℤ):ℚ) ≤ p := Int.floor_le p
      have h2 : ((⌊p⌋:ℤ):ℚ) < (M:ℚ) + 1 := by
        linarith [show (1:ℚ)/2^40 < 1 by norm_num]
      have h3 : ⌊p⌋ < M + 1 := by exact_mod_cast h2
      omega
    have hm_nonneg : 0 ≤ ⌊p⌋ := Int.floor_nonneg.mpr hp_nonneg
    refine ⟨⌊p⌋, hm_nonneg, hm_lo, hm_hi, ?_⟩
    simp only [CircularClockList.format_time_difference]
    rw [hfloor, ← hvdef, ← hf1def, ← hpdef, hdirstr]

/-- Evaluate `fl` at a concrete positive rational from its binade, the
rounded scaled significand, and the rescaled result. -/
lemma fl_eval_pos (q : ℚ) (e : ℤ) (n : ℤ) (r : ℚ) (hq : 0 < q)
    (h1 : (2:ℚ)^e ≤ q) (h2 : q < (2:ℚ)^(e+1))
    (hn : |q * (2:ℚ)^((52:ℤ) - e) - (n:ℚ)| < 1/2)
    (hr : (n:ℚ) * (2:ℚ)^(e - 52) = r) :
    fl q = r := by
  rw [fl_eq_of_bounds q e (ne_of_gt hq) (by rw [abs_of_pos hq]; exact h1)
    (by rw [abs_of_pos hq]; exact h2), rhe_eq_of_abs_lt_half _ n hn, hr]

/-- Claim C4 counterexample: with current local times 09:00:00 and
14:07:00 — an exact difference of 5 hours 7 minutes — the binary64
evaluation of `int((abs_hours - whole_hours) * 60)` truncates
`6.99999999999999…` to `6`, so the program reports "5h 6m ahead" while
the rounded-down minutes of the exact `abs(diff_hours)` are `7`. -/
theorem difference_minutes_counterexample :
    ∃ r, pairRing.calculate_time_difference envCounter 0 1 = some r ∧
      r.difference_text = "5h 6m ahead" ∧
      ((60 * ((envCounter 1).hour : ℤ) + ((envCounter 1).minute : ℤ)) -
        (60 * ((envCounter 0).hour : ℤ) +
          ((envCounter 0).minute : ℤ))).natAbs % 60 = 7 := by
  have hfl1 : fl ((7:ℚ)/60) = 4203359652212463/36028797018963968 := by
    refine fl_eval_pos _ (-4) 8406719304424926 _ (by norm_num)
      (by norm_num) (by norm_num) ?_ (by push_cast; norm_num)
    rw [show (7:ℚ)/60 * (2:ℚ)^((52:ℤ) - (-4:ℤ)) -
        ((8406719304424926:ℤ):ℚ) = -(2/15) by push_cast; norm_num]
    rw [abs_neg, abs_of_pos (by norm_num : (0:ℚ) < 2/15)]
    norm_num
  have hfl2 : fl ((184347344747032303:ℚ)/36028797018963968) =
      5760854523344759/1125899906842624 := by
    refine fl_eval_pos _ 2 5760854523344759 _ (by norm_num)
      (by norm_num) (by norm_num) ?_ (by push_cast; norm_num)
    rw [show (184347344747032303:ℚ)/36028797018963968 *
        (2:ℚ)^((52:ℤ) - (2:ℤ)) - ((5760854523344759:ℤ):ℚ) = 15/32 by
      push_cast; norm_num]
    rw [abs_of_pos (by norm_num : (0:ℚ) < 15/32)]
    norm_num
  have hfl3 : fl ((131354989131639:ℚ)/1125899906842624) =
      131354989131639/1125899906842624 := by
    refine fl_eval_pos _ (-4) 8406719304424896 _ (by norm_num)
      (by norm_num) (by norm_num) ?_ (by push_cast; norm_num)
    rw [show (131354989131639:ℚ)/1125899906842624 *
        (2:ℚ)^((52:ℤ) - (-4:ℤ)) - ((8406719304424896:ℤ):ℚ) = 0 by
      push_cast; norm_num]
    rw [abs_zero]
    norm_num
  have hfl4 : fl ((7881299347898340:ℚ)/1125899906842624) =
      1970324836974585/281474976710656 := by
    refine fl_eval_pos _ 2 7881299347898340 _ (by norm_num)
      (by norm_num) (by norm_num) ?_ (by push_cast; norm_num)
    rw [show (7881299347898340:ℚ)/1125899906842624 *
        (2:ℚ)^((52:ℤ) - (2:ℤ)) - ((7881299347898340:ℤ):ℚ) = 0 by
      push_cast; norm_num]
    rw [abs_zero]
    norm_num
  unfold CircularClockList.calculate_time_difference
  rw [show pairRing.get_clock_at_index 0 = some 0 by decide,
    show pairRing.get_clock_at_index 1 = some 1 by decide]
  dsimp only
  refine ⟨_, rfl, ?_, by decide⟩
  rw [show (((envCounter 1).minute:ℚ) - ((envCounter 0).minute:ℚ))/60 =
      (7:ℚ)/60 by simp [envCounter]]
  rw [hfl1]
  rw [show ((envCounter 1).hour:ℚ) - ((envCounter 0).hour:ℚ) +
      (4203359652212463:ℚ)/36028797018963968 =
      184347344747032303/36028797018963968 by
    simp only [envCounter]
    norm_num]
  rw [hfl2]
  simp only [CircularClockList.format_time_difference]
  rw [abs_of_pos
    (by norm_num : (0:ℚ) < (5760854523344759:ℚ)/1125899906842624)]
  rw [show ⌊(5760854523344759:ℚ)/1125899906842624⌋ = 5 by
    rw [Int.floor_eq_iff]
    refine ⟨by norm_num, by norm_num⟩]
  rw [show (5760854523344759:ℚ)/1125899906842624 - ((5:ℤ):ℚ) =
      131354989131639/1125899906842624 by push_cast; norm_num]
  rw [hfl3]
  rw [show (131354989131639:ℚ)/1125899906842624 * 60 =
      7881299347898340/1125899906842624 by norm_num]
  rw [hfl4]
  rw [show ⌊(1970324836974585:ℚ)/281474976710656⌋ = 6 by
    rw [Int.floor_eq_iff]
    refine ⟨by norm_num, by norm_num⟩]
  rw [if_neg (by norm_num : ¬(6:ℤ) = 0)]
  rw [if_pos
    (by norm_num : (0:ℚ) < (5760854523344759:ℚ)/1125899906842624)]
  decide

/-- Rounding to two decimals always yields an integer multiple of
`1/100`. -/
lemma pyRound2_mul_100 (q : ℚ) : ∃ z : ℤ, pyRound2 q * 100 = (z:ℚ) := by
  refine ⟨roundHalfToEven (q * 100), ?_⟩
  unfold pyRound2
  rw [div_mul_cancel₀]
  norm_num

/-- Claim C4 (amended): with both indices valid and `delta` the exact
difference of the two current times in minutes, the comparison's numeric
field is the exact `delta / 60` rounded half-to-even to two decimals (an
integer multiple of `1/100` within `1/200` of the exact value), and the
text splits `|delta|` into the exact whole hours `|delta| / 60` and a
minutes component that binary64 truncation makes either the exact
`|delta| % 60` or one less (and exactly `0` whenever the minute fields
agree), the minutes being omitted when the computed value is zero, the
string ending in "ahead" iff `delta > 0` and "behind" otherwise
(including a zero difference). -/
theorem calculate_time_difference_float_spec (l : CircularClockList)
    (env : TimeEnv) (index1 index2 : Int) (c1 c2 : Nat) (delta : ℤ)
    (h1 : l.get_clock_at_index index1 = some c1)
    (h2 : l.get_clock_at_index index2 = some c2)
    (hh1 : (env c1).hour < 24) (hm1 : (env c1).minute < 60)
    (hh2 : (env c2).hour < 24) (hm2 : (env c2).minute < 60)
    (hdelta : delta =
      (60 * ((env c2).hour : ℤ) + ((env c2).minute : ℤ)) -
        (60 * ((env c1).hour : ℤ) + ((env c1).minute : ℤ))) :
    ∃ r : TimeDifference,
      l.calculate_time_difference env index1 index2 = some r ∧
      r.clock1 = (l.nodes c1).city_name ∧
      r.clock2 = (l.nodes c2).city_name ∧
      r.difference_hours = pyRound2 ((delta:ℚ)/60) ∧
      |r.difference_hours - (delta:ℚ)/60| ≤ 1/200 ∧
      (∃ z : ℤ, r.difference_hours * 100 = (z:ℚ)) ∧
      ∃ mins : ℤ,
        0 ≤ mins ∧
        (delta.natAbs : ℤ) % 60 - 1 ≤ mins ∧
        mins ≤ (delta.natAbs : ℤ) % 60 ∧
        (delta % 60 = 0 → mins = 0) ∧
        r.difference_text =
          (if mins = 0 then
             toString ((delta.natAbs : ℤ) / 60) ++ " hours " ++
               (if 0 < delta then "ahead" else "behind")
           else
             toString ((delta.natAbs : ℤ) / 60) ++ "h " ++
               toString mins ++ "m " ++
               (if 0 < delta then "ahead" else "behind")) := by
  unfold CircularClockList.calculate_time_difference
  rw [h1, h2]
  dsimp only
  set Dh : ℤ := ((env c2).hour : ℤ) - ((env c1).hour : ℤ) with hDh
  set Dm : ℤ := ((env c2).minute : ℤ) - ((env c1).minute : ℤ) with hDm
  have hch : ((env c2).hour : ℚ) - ((env c1).hour : ℚ) = (Dh : ℚ) := by
    rw [hDh]
    push_cast
    ring
  have hcm : ((env c2).minute : ℚ) - ((env c1).minute : ℚ) =
      (Dm : ℚ) := by
    rw [hDm]
    push_cast
    ring
  rw [hch, hcm]
  have hdh : |Dh| < 24 := by
    rw [hDh, abs_lt]
    omega
  have hdm : |Dm| < 60 := by
    rw [hDm, abs_lt]
    omega
  have hde : delta = 60 * Dh + Dm := by
    rw [hDh, hDm]
    omega
  obtain ⟨hcl0, hex0⟩ := float_diff_close Dh Dm hdh hdm
  have hcast : ((60 * Dh + Dm : ℤ) : ℚ) = (delta : ℚ) := by
    rw [hde]
  have hclose :
      |fl ((Dh:ℚ) + fl ((Dm:ℚ)/60)) - (delta:ℚ)/60| ≤ 1/2^47 := by
    rw [← hcast]
    exact hcl0
  have hexact : delta % 60 = 0 →
      fl ((Dh:ℚ) + fl ((Dm:ℚ)/60)) = (delta:ℚ)/60 := by
    intro h0
    have hDm0 : Dm = 0 := by omega
    rw [hex0 hDm0, hde, hDm0]
    push_cast
    ring
  obtain ⟨mins, hmins0, hminsl, hminsu, htext⟩ :=
    format_time_difference_float_spec _ delta hclose hexact
  have hround := pyRound2_eq_of_close _ delta hclose
  refine ⟨_, rfl, rfl, rfl, ?_, ?_, ?_, mins, hmins0, hminsl, hminsu,
    ?_, htext⟩
  · exact hround
  · show |pyRound2 (fl ((Dh:ℚ) + fl ((Dm:ℚ)/60))) - (delta:ℚ)/60| ≤ 1/200
    rw [hround]
    exact pyRound2_close _
  · exact pyRound2_mul_100 _
  · intro h0
    omega

/-- The claimed scenario: on the two-clock ring with current local times
09:30:00 and 14:30:00 the comparison of first against second yields
numeric field 5 and text "5 hours ahead", and the reversed comparison
yields -5 and "5 hours behind". -/
theorem calculate_time_difference_float_spec_witness :
    (∃ r : TimeDifference,
      pairRing.calculate_time_difference envDifference 0 1 = some r ∧
      r.difference_hours = 5 ∧ r.difference_text = "5 hours ahead") ∧
    (∃ r : TimeDifference,
      pairRing.calculate_time_difference envDifference 1 0 = some r ∧
      r.difference_hours = -5 ∧
      r.difference_text = "5 hours behind") := by
  constructor
  · obtain ⟨r, hr, _, _, hhours, _, _, mins, _, _, _, hz, htext⟩ :=
      calculate_time_difference_float_spec pairRing envDifference 0 1 0 1
        300 (by decide) (by decide) (by decide) (by decide) (by decide)
        (by decide) (by decide)
    refine ⟨r, hr, ?_, ?_⟩
    · rw [hhours]
      unfold pyRound2
      rw [show ((300:ℤ):ℚ)/60*100 = ((500:ℤ):ℚ) by push_cast; norm_num,
        rhe_intCast]
      push_cast
      norm_num
    · have hm0 : mins = 0 := hz (by decide)
      rw [htext, if_pos hm0]
      decide
  · obtain ⟨r, hr, _, _, hhours, _, _, mins, _, _, _, hz, htext⟩ :=
      calculate_time_difference_float_spec pairRing envDifference 1 0 1 0
        (-300) (by decide) (by decide) (by decide) (by decide) (by decide)
        (by decide) (by decide)
    refine ⟨r, hr, ?_, ?_⟩
    · rw [hhours]
      unfold pyRound2
      rw [show ((-300:ℤ):ℚ)/60*100 = ((-500:ℤ):ℚ) by push_cast; norm_num,
        rhe_intCast]
      push_cast
      norm_num
    · have hm0 : mins = 0 := hz (by decide)
      rw [htext, if_pos hm0]
      decide
